import Mathlib

set_option autoImplicit false

/-!
# Verification of the decomposition-and-allocation pipeline

Shallow embedding of the core of the `pddl-generalized-allocator`
repository, together with proofs about its specification claims.

The embedding follows the Python sources:
* `src/planning/task.py`        — `GroundAtom`, `PlanningTask`
* `src/planning/subtasks.py`    — `SubTask`, `finer_partition_by_roles`,
                                  `_merge_two_subtasks`
* `src/planning/constraint_aware_merge.py` — the constraint-aware merge pass
* `src/planning/clustering.py`  — `split_large_cluster`,
                                  `build_subtasks_with_retry`
* `src/planning/roles.py`       — role resolution
* `src/planning/allocation.py`  — cost computation and agent allocation
* `src/pddl/sexpr_parser.py`    — the S-expression reader

Python dictionaries are modelled as insertion-ordered association lists,
Python sets of strings/atoms as lists that are deduplicated where their
cardinality or minimum is observed (the only observations the code makes).
Python `float` quantities that the verified components feed through exact
comparisons are modelled as `ℚ`; `float('inf')` becomes `⊤ : WithTop ℚ`.
-/

namespace PDDLAlloc

/-- A ground atom: an immutable predicate application `(predicate, args)`
(`src/planning/task.py`, `GroundAtom`). Equality is by value. -/
structure GroundAtom where
  predicate : String
  args : List String
deriving DecidableEq, Repr

/-- The grounded planning task. Only the fields read by the verified
components (`init` and `goals`) are carried; Python stores both as sets of
`GroundAtom`, embedded here as lists (`src/planning/task.py`). -/
structure PlanningTask where
  init : List GroundAtom
  goals : List GroundAtom
deriving DecidableEq, Repr

/-- Association-list lookup (Python `d[k]` / `d.get(k)`), first match wins.
Python dicts have unique keys, which the update function below maintains. -/
def alookup {κ β : Type} [DecidableEq κ] (k : κ) : List (κ × β) → Option β
  | [] => none
  | (k', v) :: rest => if k' = k then some v else alookup k rest

/-- Association-list update (Python `d[k] = v`): replaces the value at an
existing key in place, otherwise appends the new binding, exactly the
insertion-order behaviour of a Python dict. -/
def aset {κ β : Type} [DecidableEq κ] (k : κ) (v : β) : List (κ × β) → List (κ × β)
  | [] => [(k, v)]
  | (k', v') :: rest => if k' = k then (k, v) :: rest else (k', v') :: aset k v rest

/-- Python `d1.update(d2)`: fold `aset` over the second dict's bindings. -/
def aupdate {κ β : Type} [DecidableEq κ] (d1 d2 : List (κ × β)) : List (κ × β) :=
  d2.foldl (fun acc kv => aset kv.1 kv.2 acc) d1

/-- A goal's resolved roles: role name → object value
(the `Dict[str, str]` produced by `extract_roles_for_goal`). -/
abbrev RolesMap := List (String × String)

/-- A subtask (`src/planning/subtasks.py`, `@dataclass SubTask`).
`role_signature` values are `Option String` because
`finer_partition_by_roles` stores `roles.get(r, None)`, which is `None`
for a cluster key the goal's roles do not cover. -/
structure SubTask where
  id : ℕ
  goals : List GroundAtom
  landmark_predicates : List String
  role_signature : List (String × Option String)
  roles_per_goal : List (GroundAtom × RolesMap)
deriving DecidableEq, Repr



/-! ## `split_large_cluster` (`src/planning/clustering.py`) -/

/-- The pseudo-random generator handle (`src/utils/random_utils.py`,
`RandomState`, wrapping Python's seeded `random.Random`).  The verified
component draws at most one `random()` value and performs at most one
`shuffle`, so the state is modelled by those two observations; that
`random.shuffle` produces a permutation of its input is a property of the
Python standard library, carried as a bundled proof. -/
structure RandomState where
  u : ℚ
  shuf : List GroundAtom → List GroundAtom
  shuf_perm : ∀ l, (shuf l).Perm l

/-- Slicing a list into chunks of `n` (`cluster_copy[i:i + max_size]` for
`i in range(0, len, max_size)`).  Python raises `ValueError` on step `0`;
the `0` case below is unreachable from the call site, which guards
`max_size` positive. -/
def chunkList {α : Type} : ℕ → List α → List (List α)
  | _, [] => []
  | 0, _ :: _ => []
  | n + 1, x :: xs => (x :: xs).take (n + 1) :: chunkList (n + 1) ((x :: xs).drop (n + 1))
termination_by _ l => l.length
decreasing_by simp; omega

/-- `split_large_cluster(cluster, max_size, rng, epsilon, use_structure_order)`
(`src/planning/clustering.py`): clusters not exceeding `max_size` are
returned as the sole chunk untouched; otherwise with probability `epsilon`
the copy is shuffled, and the (possibly shuffled) copy is sliced into
`max_size`-sized chunks. -/
def split_large_cluster (cluster : List GroundAtom) (max_size : ℕ)
    (rng : RandomState) (epsilon : ℚ) : List (List GroundAtom) :=
  if cluster.length ≤ max_size then [cluster]
  else
    let cluster_copy := if rng.u < epsilon then rng.shuf cluster else cluster
    chunkList max_size cluster_copy

theorem chunkList_flatten {α : Type} (n : ℕ) (l : List α) (hn : 0 < n) :
    (chunkList n l).flatten = l := by
  induction n, l using chunkList.induct with
  | case1 n => simp [chunkList]
  | case2 x xs => omega
  | case3 n x xs ih =>
    simp only [chunkList, List.flatten_cons, ih (Nat.succ_pos n)]
    simp

theorem chunkList_mem_length {α : Type} (n : ℕ) (l : List α) :
    ∀ c ∈ chunkList n l, c.length ≤ n := by
  induction n, l using chunkList.induct with
  | case1 n => simp [chunkList]
  | case2 x xs => simp [chunkList]
  | case3 n x xs ih =>
    intro c hc
    simp only [chunkList, List.mem_cons] at hc
    rcases hc with rfl | hc
    · simp
    · exact ih c hc

/-- C10: `split_large_cluster` (a) returns chunks whose concatenation is a
permutation of the input cluster — no goal is lost or duplicated, (b) every
chunk has length at most `max_size`, and (c) an input of length at most
`max_size` is returned as the single-element list containing the input
unchanged, independently of the generator state (no shuffle happens). -/
theorem split_large_cluster_correct (cluster : List GroundAtom) (max_size : ℕ)
    (rng : RandomState) (epsilon : ℚ) (hpos : 0 < max_size) :
    ((split_large_cluster cluster max_size rng epsilon).flatten).Perm cluster ∧
    (∀ c ∈ split_large_cluster cluster max_size rng epsilon, c.length ≤ max_size) ∧
    (cluster.length ≤ max_size →
      ∀ rng' : RandomState, split_large_cluster cluster max_size rng' epsilon = [cluster]) := by
  unfold split_large_cluster
  by_cases hle : cluster.length ≤ max_size
  · simp [hle]
  · refine ⟨?_, ?_, fun h => absurd h hle⟩ <;> rw [if_neg hle]
    · by_cases hu : rng.u < epsilon
      · simp only [hu, if_true]
        rw [chunkList_flatten _ _ hpos]
        exact rng.shuf_perm cluster
      · simp only [hu, if_false]
        rw [chunkList_flatten _ _ hpos]
    · by_cases hu : rng.u < epsilon <;> simp only [hu, if_true, if_false] <;>
        exact chunkList_mem_length _ _

/-- A concrete generator state whose shuffle is the identity. -/
def rngId : RandomState := ⟨0, id, fun l => List.Perm.refl l⟩

/-- Two concrete goal atoms used in closed instances. -/
def gAtom1 : GroundAtom := ⟨"at", ["r1", "l1"]⟩

def gAtom2 : GroundAtom := ⟨"at", ["r2", "l2"]⟩

/-- Witness for C10 at a concrete input. -/
theorem split_large_cluster_correct_witness :
    (0 : ℕ) < 1 ∧
    (((split_large_cluster [gAtom1, gAtom2] 1 rngId 0).flatten).Perm [gAtom1, gAtom2] ∧
     (∀ c ∈ split_large_cluster [gAtom1, gAtom2] 1 rngId 0, c.length ≤ 1) ∧
     ([gAtom1, gAtom2].length ≤ 1 →
       ∀ rng' : RandomState, split_large_cluster [gAtom1, gAtom2] 1 rng' 0 = [[gAtom1, gAtom2]])) :=
  ⟨by decide, split_large_cluster_correct [gAtom1, gAtom2] 1 rngId 0 (by decide)⟩

/-! ## The retry state machine (`build_subtasks_with_retry`,
`src/planning/clustering.py`)

One attempt of the loop body (Steps 5–9.5: goal graph, connected
components, `split_large_cluster`, role extraction, fine partition and the
optional constraint-aware merge) is a function from the current `epsilon`
and generator state to a subtask list and the successor generator state.
The retry skeleton is verified for every such body, which covers in
particular the one assembled in `build_subtasks_with_retry`. -/

/-- The `for retry in range(max_retries + 1)` loop of
`build_subtasks_with_retry`, by remaining-attempt count: run the attempt;
if the subtask count is within `max_subtasks`, return it; otherwise bump
`epsilon` by `epsilon_step` capped at `1.0` and retry; when attempts are
exhausted, raise the UNSAT `RuntimeError`. -/
def retryLoopGo {σ : Type} (attempt : ℚ → σ → List SubTask × σ)
    (max_subtasks : ℕ) (epsilon_step : ℚ) : ℕ → ℚ → σ → Except String (List SubTask)
  | 0, _, _ => .error "Cannot satisfy max_subtasks"
  | n + 1, eps, st =>
    let r := attempt eps st
    if r.1.length ≤ max_subtasks then .ok r.1
    else retryLoopGo attempt max_subtasks epsilon_step n (min 1 (eps + epsilon_step)) r.2

/-- `build_subtasks_with_retry(task, cfg_cluster, roles_ref, rng)`:
`max_retries + 1` attempts starting at `epsilon_start`. -/
def build_subtasks_with_retry {σ : Type} (attempt : ℚ → σ → List SubTask × σ)
    (max_subtasks : ℕ) (epsilon_step : ℚ) (max_retries : ℕ) (epsilon_start : ℚ)
    (st : σ) : Except String (List SubTask) :=
  retryLoopGo attempt max_subtasks epsilon_step (max_retries + 1) epsilon_start st

/-- The epsilon used by attempt `i`: `epsilon_start`, then
`min(1.0, epsilon + epsilon_step)` after every failed attempt. -/
def epsSeq (epsilon_step epsilon_start : ℚ) : ℕ → ℚ
  | 0 => epsilon_start
  | n + 1 => min 1 (epsSeq epsilon_step epsilon_start n + epsilon_step)

/-- The generator state seen by attempt `i`. -/
def stSeq {σ : Type} (attempt : ℚ → σ → List SubTask × σ)
    (epsilon_step epsilon_start : ℚ) (st0 : σ) : ℕ → σ
  | 0 => st0
  | n + 1 =>
    (attempt (epsSeq epsilon_step epsilon_start n)
      (stSeq attempt epsilon_step epsilon_start st0 n)).2

/-- The subtask list produced by attempt `i`. -/
def attemptOut {σ : Type} (attempt : ℚ → σ → List SubTask × σ)
    (epsilon_step epsilon_start : ℚ) (st0 : σ) (i : ℕ) : List SubTask :=
  (attempt (epsSeq epsilon_step epsilon_start i)
    (stSeq attempt epsilon_step epsilon_start st0 i)).1

theorem epsSeq_shift (step eps0 : ℚ) (i : ℕ) :
    epsSeq step (min 1 (eps0 + step)) i = epsSeq step eps0 (i + 1) := by
  induction i with
  | zero => rfl
  | succ i ih => simp only [epsSeq, ih]

theorem stSeq_shift {σ : Type} (attempt : ℚ → σ → List SubTask × σ)
    (step eps0 : ℚ) (st0 : σ) (i : ℕ) :
    stSeq attempt step (min 1 (eps0 + step)) (attempt eps0 st0).2 i =
      stSeq attempt step eps0 st0 (i + 1) := by
  induction i with
  | zero => rfl
  | succ i ih => simp only [stSeq, ih, epsSeq_shift]

theorem attemptOut_shift {σ : Type} (attempt : ℚ → σ → List SubTask × σ)
    (step eps0 : ℚ) (st0 : σ) (i : ℕ) :
    attemptOut attempt step (min 1 (eps0 + step)) (attempt eps0 st0).2 i =
      attemptOut attempt step eps0 st0 (i + 1) := by
  simp only [attemptOut, epsSeq_shift, stSeq_shift]

theorem retryLoopGo_error_iff {σ : Type} (attempt : ℚ → σ → List SubTask × σ)
    (maxSub : ℕ) (step : ℚ) :
    ∀ (n : ℕ) (eps0 : ℚ) (st0 : σ),
      (∃ msg, retryLoopGo attempt maxSub step n eps0 st0 = .error msg) ↔
        ∀ i < n, maxSub < (attemptOut attempt step eps0 st0 i).length := by
  intro n
  induction n with
  | zero => intro eps0 st0; simp [retryLoopGo]
  | succ n ih =>
    intro eps0 st0
    simp only [retryLoopGo]
    by_cases h : (attempt eps0 st0).1.length ≤ maxSub
    · simp only [h, if_true]
      constructor
      · rintro ⟨msg, hmsg⟩; cases hmsg
      · intro hall
        exact absurd (hall 0 (Nat.succ_pos n)) (by simpa [attemptOut, epsSeq, stSeq] using h)
    · simp only [h, if_false]
      rw [ih]
      constructor
      · intro hall i hi
        cases i with
        | zero => simpa [attemptOut, epsSeq, stSeq] using Nat.lt_of_not_le h
        | succ i =>
          rw [← attemptOut_shift]
          exact hall i (Nat.lt_of_succ_lt_succ hi)
      · intro hall i hi
        rw [attemptOut_shift]
        exact hall (i + 1) (Nat.succ_lt_succ hi)

theorem retryLoopGo_first_success {σ : Type} (attempt : ℚ → σ → List SubTask × σ)
    (maxSub : ℕ) (step : ℚ) :
    ∀ (n k : ℕ) (eps0 : ℚ) (st0 : σ), k < n →
      (∀ i < k, maxSub < (attemptOut attempt step eps0 st0 i).length) →
      (attemptOut attempt step eps0 st0 k).length ≤ maxSub →
      retryLoopGo attempt maxSub step n eps0 st0 =
        .ok (attemptOut attempt step eps0 st0 k) := by
  intro n
  induction n with
  | zero => intro k eps0 st0 hk; omega
  | succ n ih =>
    intro k eps0 st0 hk hfail hsucc
    simp only [retryLoopGo]
    cases k with
    | zero =>
      have : (attempt eps0 st0).1.length ≤ maxSub := by
        simpa [attemptOut, epsSeq, stSeq] using hsucc
      simp [this, attemptOut, epsSeq, stSeq]
    | succ k =>
      have h0 : maxSub < (attempt eps0 st0).1.length := by
        simpa [attemptOut, epsSeq, stSeq] using hfail 0 (Nat.succ_pos k)
      simp only [Nat.not_le.mpr h0, if_false]
      rw [show (attemptOut attempt step eps0 st0 (k+1)) =
        attemptOut attempt step (min 1 (eps0 + step)) (attempt eps0 st0).2 k from
        (attemptOut_shift attempt step eps0 st0 k).symm] at hsucc ⊢
      apply ih k _ _ (Nat.lt_of_succ_lt_succ hk) _ hsucc
      intro i hi
      rw [attemptOut_shift]
      exact hfail (i + 1) (Nat.succ_lt_succ hi)

/-- C4: the retry state machine of `build_subtasks_with_retry`. (a) It
fails with the UNSAT error exactly when each of the `max_retries + 1`
attempts produces more than `max_subtasks` subtasks; (b) it returns
successfully the subtask list of the first attempt whose count is within
`max_subtasks`; (c) attempt `i + 1` runs at epsilon
`min 1 (ε_i + epsilon_step)`; and (d) with `max_retries = 0` and a first
attempt over budget, it fails with the UNSAT error after that single
attempt, which was evaluated at the unmodified `epsilon_start`. -/
theorem build_subtasks_with_retry_spec {σ : Type}
    (attempt : ℚ → σ → List SubTask × σ) (maxSub : ℕ) (step eps0 : ℚ)
    (maxRetries : ℕ) (st0 : σ) :
    ((∃ msg, build_subtasks_with_retry attempt maxSub step maxRetries eps0 st0 =
        .error msg) ↔
      ∀ i < maxRetries + 1, maxSub < (attemptOut attempt step eps0 st0 i).length) ∧
    (∀ k < maxRetries + 1,
      (∀ i < k, maxSub < (attemptOut attempt step eps0 st0 i).length) →
      (attemptOut attempt step eps0 st0 k).length ≤ maxSub →
      build_subtasks_with_retry attempt maxSub step maxRetries eps0 st0 =
        .ok (attemptOut attempt step eps0 st0 k)) ∧
    (∀ i, epsSeq step eps0 (i + 1) = min 1 (epsSeq step eps0 i + step)) ∧
    (maxRetries = 0 → maxSub < (attempt eps0 st0).1.length →
      build_subtasks_with_retry attempt maxSub step maxRetries eps0 st0 =
        .error "Cannot satisfy max_subtasks" ∧
      attemptOut attempt step eps0 st0 0 = (attempt eps0 st0).1) := by
  refine ⟨retryLoopGo_error_iff attempt maxSub step _ eps0 st0,
    fun k hk => retryLoopGo_first_success attempt maxSub step _ k eps0 st0 hk,
    fun i => rfl, ?_⟩
  rintro rfl h0
  refine ⟨?_, rfl⟩
  simp [build_subtasks_with_retry, retryLoopGo, Nat.not_le.mpr h0]

/-! ## The S-expression reader (`src/pddl/sexpr_parser.py`) -/

/-- The possibly-nested tree of atoms and lists (`SExpr` in the source). -/
inductive SExpr where
  | atom (s : String)
  | list (es : List SExpr)
deriving Repr

/-- Python exception identity for the error paths the reader can take. -/
inductive PyErr where
  | valueError (msg : String)
  | syntaxError (msg : String)
deriving DecidableEq, Repr

mutual

/-- `_parse_single_expr(tokens, start)`: parses one expression at the head
of the remaining token list and returns it with the rest.  A `"("` opens a
nested list, a bare `")"` raises `ValueError("Unexpected closing
parenthesis")`, anything else is an atom.  The `[]` case corresponds to
Python's `(None, start)` return, which no caller can reach (both loops
guard the index); it is modelled as an internal error. -/
def parseSingleExpr : (l : List String) →
    Except PyErr (SExpr × { r : List String // r.length < l.length })
  | [] => .error (.valueError "internal: none")
  | tok :: rest =>
    if tok = "(" then
      match parseNested rest with
      | .error e => .error e
      | .ok (es, ⟨r, hr⟩) => .ok (.list es, ⟨r, by simpa using Nat.lt_succ_of_lt hr⟩)
    else if tok = ")" then .error (.valueError "Unexpected closing parenthesis")
    else .ok (.atom tok, ⟨rest, by simp⟩)
termination_by l => (l.length, 0)

/-- The `while i < len(tokens) and tokens[i] != ')'` loop inside the `"("`
branch: parses sub-expressions until the closing parenthesis; running out
of tokens raises `ValueError("Unmatched opening parenthesis")`. -/
def parseNested : (l : List String) →
    Except PyErr (List SExpr × { r : List String // r.length < l.length })
  | [] => .error (.valueError "Unmatched opening parenthesis")
  | tok :: rest =>
    if tok = ")" then .ok ([], ⟨rest, by simp⟩)
    else
      match parseSingleExpr (tok :: rest) with
      | .error e => .error e
      | .ok (e, ⟨r, hr⟩) =>
        match parseNested r with
        | .error e => .error e
        | .ok (es, ⟨r', hr'⟩) => .ok (e :: es, ⟨r', by omega⟩)
termination_by l => (l.length, 1)

end

/-- `parse_sexpr(tokens)`: the top-level scan collecting expressions until
the token list is exhausted. -/
def parse_sexpr : (l : List String) → Except PyErr (List SExpr)
  | [] => .ok []
  | tok :: rest =>
    match parseSingleExpr (tok :: rest) with
    | .error e => .error e
    | .ok (e, ⟨r, _⟩) =>
      match parse_sexpr r with
      | .error e => .error e
      | .ok es => .ok (e :: es)
termination_by l => l.length

mutual

/-- The token stream that prints a tree: the inverse image describing
well-parenthesized input. -/
def serializeExpr : SExpr → List String
  | .atom s => [s]
  | .list es => "(" :: (serializeList es ++ [")"])

/-- Serialization of a sequence of trees. -/
def serializeList : List SExpr → List String
  | [] => []
  | e :: es => serializeExpr e ++ serializeList es

end

mutual

/-- A tree is well-formed when none of its atoms is a parenthesis token. -/
def wfExprB : SExpr → Bool
  | .atom s => !(s == "(") && !(s == ")")
  | .list es => wfListB es

/-- Well-formedness of a sequence of trees. -/
def wfListB : List SExpr → Bool
  | [] => true
  | e :: es => wfExprB e && wfListB es

end

/-- A token stream is well-parenthesized when it prints some well-formed
forest. -/
def Balanced (l : List String) : Prop :=
  ∃ es, wfListB es = true ∧ serializeList es = l

/-- Observation of Python exception identity: does a reader result raise
`SyntaxError`? -/
def raisesSyntaxError {α : Type} : Except PyErr α → Bool
  | .error (.syntaxError _) => true
  | _ => false

mutual

/-- Size measure on trees, for induction. -/
def sizeE : SExpr → ℕ
  | .atom _ => 1
  | .list es => sizeL es + 1

/-- Size measure on forests. -/
def sizeL : List SExpr → ℕ
  | [] => 1
  | e :: es => sizeE e + sizeL es

end

theorem sizeE_pos (e : SExpr) : 1 ≤ sizeE e := by
  cases e <;> simp [sizeE]

theorem sizeL_pos (es : List SExpr) : 1 ≤ sizeL es := by
  cases es with
  | nil => simp [sizeL]
  | cons e es => simp [sizeL]; have := sizeE_pos e; omega

/-- Subtype-free view of `parseSingleExpr` (the termination bound erased),
used to state round-trip lemmas. -/
def parseSingleExprR (l : List String) : Except PyErr (SExpr × List String) :=
  match parseSingleExpr l with
  | .error e => .error e
  | .ok p => .ok (p.1, p.2.val)

/-- Subtype-free view of `parseNested`. -/
def parseNestedR (l : List String) : Except PyErr (List SExpr × List String) :=
  match parseNested l with
  | .error e => .error e
  | .ok p => .ok (p.1, p.2.val)

theorem parseSingleExprR_ok (l : List String) (e : SExpr) (r : List String) :
    parseSingleExprR l = .ok (e, r) →
    ∃ h, parseSingleExpr l = .ok (e, ⟨r, h⟩) := by
  intro hp
  rw [parseSingleExprR] at hp
  split at hp
  · cases hp
  · rename_i p heq
    obtain ⟨e1, r1, hr1⟩ := p
    obtain ⟨he, hr⟩ : e1 = e ∧ r1 = r := by simpa using hp
    subst he
    subst hr
    exact ⟨hr1, heq⟩

theorem parseNestedR_ok (l : List String) (es : List SExpr) (r : List String) :
    parseNestedR l = .ok (es, r) →
    ∃ h, parseNested l = .ok (es, ⟨r, h⟩) := by
  intro hp
  rw [parseNestedR] at hp
  split at hp
  · cases hp
  · rename_i p heq
    obtain ⟨es1, r1, hr1⟩ := p
    obtain ⟨he, hr⟩ : es1 = es ∧ r1 = r := by simpa using hp
    subst he
    subst hr
    exact ⟨hr1, heq⟩

theorem parseSingleExpr_toR (l : List String) (e : SExpr)
    (r : { r : List String // r.length < l.length }) :
    parseSingleExpr l = .ok (e, r) → parseSingleExprR l = .ok (e, r.val) := by
  intro hp
  rw [parseSingleExprR, hp]

theorem parseNested_toR (l : List String) (es : List SExpr)
    (r : { r : List String // r.length < l.length }) :
    parseNested l = .ok (es, r) → parseNestedR l = .ok (es, r.val) := by
  intro hp
  rw [parseNestedR, hp]

theorem parseSingleExprR_error (l : List String) (e' : PyErr) :
    parseSingleExprR l = .error e' ↔ parseSingleExpr l = .error e' := by
  constructor
  · intro hp
    rw [parseSingleExprR] at hp
    split at hp
    · rename_i heq
      cases hp
      exact heq
    · cases hp
  · intro hp
    rw [parseSingleExprR, hp]

theorem parseNestedR_error (l : List String) (e' : PyErr) :
    parseNestedR l = .error e' ↔ parseNested l = .error e' := by
  constructor
  · intro hp
    rw [parseNestedR] at hp
    split at hp
    · rename_i heq
      cases hp
      exact heq
    · cases hp
  · intro hp
    rw [parseNestedR, hp]

theorem parse_sound_aux : ∀ n : ℕ,
    (∀ l : List String, l.length ≤ n → ∀ e r, parseSingleExprR l = .ok (e, r) →
      wfExprB e = true ∧ serializeExpr e ++ r = l) ∧
    (∀ l : List String, l.length ≤ n → ∀ es r, parseNestedR l = .ok (es, r) →
      wfListB es = true ∧ serializeList es ++ ")" :: r = l) := by
  intro n
  induction n with
  | zero =>
    constructor
    · intro l hl e r hp
      have hnil : l = [] := List.length_eq_zero.mp (Nat.le_zero.mp hl)
      subst hnil
      obtain ⟨hlt, hq⟩ := parseSingleExprR_ok _ _ _ hp
      exact absurd hq (by simp [parseSingleExpr])
    · intro l hl es r hp
      have hnil : l = [] := List.length_eq_zero.mp (Nat.le_zero.mp hl)
      subst hnil
      obtain ⟨hlt, hq⟩ := parseNestedR_ok _ _ _ hp
      exact absurd hq (by simp [parseNested])
  | succ n ih =>
    obtain ⟨ihA, ihB⟩ := ih
    have hA : ∀ l : List String, l.length ≤ n + 1 → ∀ e r,
        parseSingleExprR l = .ok (e, r) →
        wfExprB e = true ∧ serializeExpr e ++ r = l := by
      intro l hl e r hp
      obtain ⟨hlt, hq⟩ := parseSingleExprR_ok _ _ _ hp
      cases l with
      | nil => exact absurd hq (by simp [parseSingleExpr])
      | cons tok rest =>
        rw [parseSingleExpr] at hq
        by_cases h1 : tok = "("
        · rw [if_pos h1] at hq
          subst h1
          split at hq
          · cases hq
          · rename_i es1 r1 hr1 heq
            obtain ⟨he, hr⟩ : SExpr.list es1 = e ∧ r1 = r := by
              simpa [Subtype.mk.injEq] using hq
            subst he
            subst hr
            obtain ⟨hwf, hser⟩ := ihB rest (by simpa using Nat.lt_succ_iff.mp hl)
              es1 r1 (parseNested_toR rest es1 ⟨r1, hr1⟩ heq)
            refine ⟨by simpa [wfExprB] using hwf, ?_⟩
            simp only [serializeExpr, List.cons_append, List.append_assoc,
              List.singleton_append, List.nil_append]
            rw [hser]
        · rw [if_neg h1] at hq
          by_cases h2 : tok = ")"
          · rw [if_pos h2] at hq
            cases hq
          · rw [if_neg h2] at hq
            obtain ⟨he, hr⟩ : SExpr.atom tok = e ∧ rest = r := by
              simpa [Subtype.mk.injEq] using hq
            subst he
            subst hr
            exact ⟨by simp [wfExprB, h1, h2], by simp [serializeExpr]⟩
    refine ⟨hA, ?_⟩
    intro l hl es r hp
    obtain ⟨hlt, hq⟩ := parseNestedR_ok _ _ _ hp
    cases l with
    | nil => exact absurd hq (by simp [parseNested])
    | cons tok rest =>
      rw [parseNested] at hq
      by_cases h1 : tok = ")"
      · rw [if_pos h1] at hq
        subst h1
        obtain ⟨he, hr⟩ : ([] : List SExpr) = es ∧ rest = r := by
          simpa [Subtype.mk.injEq] using hq
        subst he
        subst hr
        exact ⟨rfl, by simp [serializeList]⟩
      · rw [if_neg h1] at hq
        split at hq
        · cases hq
        · rename_i e1 r1 hr1 heq
          split at hq
          · cases hq
          · rename_i es2 r2 hr2 heq2
            obtain ⟨he, hr⟩ : e1 :: es2 = es ∧ r2 = r := by
              simpa [Subtype.mk.injEq] using hq
            subst he
            subst hr
            obtain ⟨hwf1, hser1⟩ := hA (tok :: rest) hl e1 r1
              (parseSingleExpr_toR (tok :: rest) e1 ⟨r1, hr1⟩ heq)
            obtain ⟨hwf2, hser2⟩ := ihB r1
              (by simp only [List.length_cons] at hr1 hl; omega) es2 r2
              (parseNested_toR r1 es2 ⟨r2, hr2⟩ heq2)
            refine ⟨by simp [wfListB, hwf1, hwf2], ?_⟩
            rw [serializeList, List.append_assoc, hser2, hser1]

theorem serializeExpr_head (e : SExpr) (he : wfExprB e = true) :
    ∃ t ts, serializeExpr e = t :: ts ∧ t ≠ ")" := by
  cases e with
  | atom s =>
    refine ⟨s, [], rfl, ?_⟩
    simp only [wfExprB, Bool.and_eq_true, Bool.not_eq_true', beq_eq_false_iff_ne] at he
    exact he.2
  | list es => exact ⟨"(", _, rfl, by simp⟩

theorem parse_complete_aux : ∀ n : ℕ,
    (∀ e, sizeE e ≤ n → wfExprB e = true → ∀ tail : List String,
      parseSingleExprR (serializeExpr e ++ tail) = .ok (e, tail)) ∧
    (∀ es, sizeL es ≤ n → wfListB es = true → ∀ tail : List String,
      parseNestedR (serializeList es ++ ")" :: tail) = .ok (es, tail)) := by
  intro n
  induction n with
  | zero =>
    constructor
    · intro e he
      have := sizeE_pos e
      omega
    · intro es he
      have := sizeL_pos es
      omega
  | succ n ih =>
    obtain ⟨ihA, ihB⟩ := ih
    have hA : ∀ e, sizeE e ≤ n + 1 → wfExprB e = true → ∀ tail : List String,
        parseSingleExprR (serializeExpr e ++ tail) = .ok (e, tail) := by
      intro e he hwf tail
      cases e with
      | atom s =>
        simp only [wfExprB, Bool.and_eq_true, Bool.not_eq_true',
          beq_eq_false_iff_ne] at hwf
        have hser : serializeExpr (SExpr.atom s) ++ tail = s :: tail := rfl
        rw [hser, parseSingleExprR, parseSingleExpr, if_neg hwf.1, if_neg hwf.2]
      | list es =>
        have hsz : sizeL es ≤ n := by
          simp only [sizeE] at he
          omega
        obtain ⟨h2, hpn⟩ := parseNestedR_ok _ _ _
          (ihB es hsz (by simpa [wfExprB] using hwf) tail)
        have hser : serializeExpr (SExpr.list es) ++ tail =
            "(" :: (serializeList es ++ ")" :: tail) := by
          simp [serializeExpr]
        rw [hser, parseSingleExprR, parseSingleExpr, if_pos rfl, hpn]
    refine ⟨hA, ?_⟩
    intro es hsz hwf tail
    cases es with
    | nil =>
      have hser : serializeList [] ++ ")" :: tail = ")" :: tail := rfl
      rw [hser, parseNestedR, parseNested, if_pos rfl]
    | cons e es' =>
      simp only [wfListB, Bool.and_eq_true] at hwf
      have hszE : sizeE e ≤ n + 1 := by
        simp only [sizeL] at hsz
        have := sizeL_pos es'
        omega
      have hszL : sizeL es' ≤ n := by
        simp only [sizeL] at hsz
        have := sizeE_pos e
        omega
      obtain ⟨t, ts, hser, htne⟩ := serializeExpr_head e hwf.1
      have ihe := hA e hszE hwf.1 (serializeList es' ++ ")" :: tail)
      have hfull2 : serializeExpr e ++ (serializeList es' ++ ")" :: tail) =
          t :: (ts ++ (serializeList es' ++ ")" :: tail)) := by
        simp [hser]
      rw [hfull2] at ihe
      obtain ⟨h1, hps⟩ := parseSingleExprR_ok _ _ _ ihe
      obtain ⟨h2, hpn⟩ := parseNestedR_ok _ _ _ (ihB es' hszL hwf.2 tail)
      have hfull : serializeList (e :: es') ++ ")" :: tail =
          t :: (ts ++ (serializeList es' ++ ")" :: tail)) := by
        simp [serializeList, hser]
      have key : parseNested (t :: (ts ++ (serializeList es' ++ ")" :: tail))) =
          .ok (e :: es', ⟨tail, by simp [List.length_append]; omega⟩) := by
        rw [parseNested, if_neg htne]
        split
        · rename_i heq
          rw [hps] at heq
          cases heq
        · rename_i e1 r1 hr1 heq
          rw [hps] at heq
          obtain ⟨he1, hr1eq⟩ : e = e1 ∧ serializeList es' ++ ")" :: tail = r1 := by
            simpa [Subtype.mk.injEq] using heq
          subst he1
          subst hr1eq
          split
          · rename_i heq2
            rw [hpn] at heq2
            cases heq2
          · rename_i es2 r2 hr2 heq2
            rw [hpn] at heq2
            obtain ⟨hes2, hr2eq⟩ : es' = es2 ∧ tail = r2 := by
              simpa [Subtype.mk.injEq] using heq2
            subst hes2
            subst hr2eq
            rfl
      rw [hfull]
      exact parseNested_toR _ _ _ key

theorem parse_errors_aux : ∀ n : ℕ,
    (∀ l : List String, l.length ≤ n → ∀ e', parseSingleExpr l = .error e' →
      ∃ msg, e' = .valueError msg) ∧
    (∀ l : List String, l.length ≤ n → ∀ e', parseNested l = .error e' →
      ∃ msg, e' = .valueError msg) := by
  intro n
  induction n with
  | zero =>
    constructor
    · intro l hl e' hp
      have hnil : l = [] := List.length_eq_zero.mp (Nat.le_zero.mp hl)
      subst hnil
      simp only [parseSingleExpr, Except.error.injEq] at hp
      exact ⟨_, hp.symm⟩
    · intro l hl e' hp
      have hnil : l = [] := List.length_eq_zero.mp (Nat.le_zero.mp hl)
      subst hnil
      simp only [parseNested, Except.error.injEq] at hp
      exact ⟨_, hp.symm⟩
  | succ n ih =>
    obtain ⟨ihA, ihB⟩ := ih
    have hA : ∀ l : List String, l.length ≤ n + 1 → ∀ e',
        parseSingleExpr l = .error e' → ∃ msg, e' = .valueError msg := by
      intro l hl e' hp
      cases l with
      | nil =>
        simp only [parseSingleExpr, Except.error.injEq] at hp
        exact ⟨_, hp.symm⟩
      | cons tok rest =>
        rw [parseSingleExpr] at hp
        by_cases h1 : tok = "("
        · rw [if_pos h1] at hp
          split at hp
          · rename_i heq
            cases hp
            exact ihB rest (by simpa using Nat.lt_succ_iff.mp hl) _ heq
          · cases hp
        · rw [if_neg h1] at hp
          by_cases h2 : tok = ")"
          · rw [if_pos h2] at hp
            cases hp
            exact ⟨_, rfl⟩
          · rw [if_neg h2] at hp
            cases hp
    refine ⟨hA, ?_⟩
    intro l hl e' hp
    cases l with
    | nil =>
      simp only [parseNested, Except.error.injEq] at hp
      exact ⟨_, hp.symm⟩
    | cons tok rest =>
      rw [parseNested] at hp
      by_cases h1 : tok = ")"
      · rw [if_pos h1] at hp
        cases hp
      · rw [if_neg h1] at hp
        split at hp
        · rename_i heq
          cases hp
          exact hA (tok :: rest) hl _ heq
        · rename_i e1 r1 hr1 heq
          split at hp
          · rename_i heq2
            cases hp
            exact ihB r1 (by simp only [List.length_cons] at hr1 hl; omega) _ heq2
          · cases hp

theorem parse_sexpr_sound : ∀ (n : ℕ) (l : List String), l.length ≤ n →
    ∀ es, parse_sexpr l = .ok es → wfListB es = true ∧ serializeList es = l := by
  intro n
  induction n with
  | zero =>
    intro l hl es hp
    have hnil : l = [] := List.length_eq_zero.mp (Nat.le_zero.mp hl)
    subst hnil
    rw [parse_sexpr] at hp
    cases hp
    exact ⟨rfl, rfl⟩
  | succ n ih =>
    intro l hl es hp
    cases l with
    | nil =>
      rw [parse_sexpr] at hp
      cases hp
      exact ⟨rfl, rfl⟩
    | cons tok rest =>
      rw [parse_sexpr] at hp
      split at hp
      · cases hp
      · rename_i e1 r1 hr1 heq
        split at hp
        · cases hp
        · rename_i es2 heq2
          have hok : (Except.ok (e1 :: es2) : Except PyErr (List SExpr)) =
              .ok es := hp
          obtain he : e1 :: es2 = es := by simpa using hok
          subst he
          obtain ⟨hwf1, hser1⟩ := (parse_sound_aux (tok :: rest).length).1
            (tok :: rest) le_rfl e1 r1
            (parseSingleExpr_toR (tok :: rest) e1 ⟨r1, hr1⟩ heq)
          obtain ⟨hwf2, hser2⟩ := ih r1
            (by simp only [List.length_cons] at hr1 hl; omega) es2 heq2
          exact ⟨by simp [wfListB, hwf1, hwf2],
            by rw [serializeList, hser2, hser1]⟩

theorem parse_sexpr_complete : ∀ (n : ℕ) (es : List SExpr), sizeL es ≤ n →
    wfListB es = true → parse_sexpr (serializeList es) = .ok es := by
  intro n
  induction n with
  | zero =>
    intro es h
    have := sizeL_pos es
    omega
  | succ n ih =>
    intro es hsz hwf
    cases es with
    | nil => rw [show serializeList [] = [] from rfl, parse_sexpr]
    | cons e es' =>
      simp only [wfListB, Bool.and_eq_true] at hwf
      obtain ⟨t, ts, hser, _⟩ := serializeExpr_head e hwf.1
      have ihe := ((parse_complete_aux (sizeE e)).1 e le_rfl hwf.1
        (serializeList es'))
      have hfull2 : serializeExpr e ++ serializeList es' =
          t :: (ts ++ serializeList es') := by
        simp [hser]
      rw [hfull2] at ihe
      obtain ⟨h1, hps⟩ := parseSingleExprR_ok _ _ _ ihe
      have hszL : sizeL es' ≤ n := by
        simp only [sizeL] at hsz
        have := sizeE_pos e
        omega
      have hrec := ih es' hszL hwf.2
      have hfull : serializeList (e :: es') = t :: (ts ++ serializeList es') := by
        simp [serializeList, hser]
      rw [hfull, parse_sexpr]
      split
      · rename_i heq
        rw [hps] at heq
        cases heq
      · rename_i e1 r1 hr1 heq
        rw [hps] at heq
        obtain ⟨he1, hr1eq⟩ : e = e1 ∧ serializeList es' = r1 := by
          have := (Except.ok.injEq _ _).mp heq
          exact ⟨congrArg Prod.fst this, congrArg (fun p => p.2.val) this⟩
        subst he1
        subst hr1eq
        split
        · rename_i heq2
          rw [hrec] at heq2
          cases heq2
        · rename_i es2 heq2
          rw [hrec] at heq2
          obtain hes2 : es' = es2 := by simpa using heq2
          subst hes2
          rfl

/-- C7 (amended): on a token stream that is not well-parenthesized — in
particular one with an unmatched closing or an unterminated opening
parenthesis — `parse_sexpr` fails by raising `ValueError` (the source
raises `ValueError`, not `SyntaxError`); on well-parenthesized input it
returns the printed forest without error. -/
theorem parse_sexpr_spec (l : List String) :
    (¬ Balanced l → ∃ msg, parse_sexpr l = .error (.valueError msg)) ∧
    (∀ es, wfListB es = true → parse_sexpr (serializeList es) = .ok es) := by
  constructor
  · intro hnb
    rcases hp : parse_sexpr l with e' | es
    · have herr : ∀ (n : ℕ) (l0 : List String), l0.length ≤ n → ∀ e'',
          parse_sexpr l0 = .error e'' → ∃ msg, e'' = .valueError msg := by
        intro n
        induction n with
        | zero =>
          intro l0 hl0 e'' hp0
          have hnil : l0 = [] := List.length_eq_zero.mp (Nat.le_zero.mp hl0)
          subst hnil
          rw [parse_sexpr] at hp0
          cases hp0
        | succ n ihn =>
          intro l0 hl0 e'' hp0
          cases l0 with
          | nil =>
            rw [parse_sexpr] at hp0
            cases hp0
          | cons tok rest =>
            rw [parse_sexpr] at hp0
            split at hp0
            · rename_i heq
              cases hp0
              exact (parse_errors_aux (tok :: rest).length).1 _ le_rfl _ heq
            · rename_i e1 r1 hr1 heq
              split at hp0
              · rename_i heq2
                cases hp0
                exact ihn r1 (by simp only [List.length_cons] at hr1 hl0; omega) _ heq2
              · cases hp0
      obtain ⟨msg, rfl⟩ := herr l.length l le_rfl e' hp
      exact ⟨msg, rfl⟩
    · obtain ⟨hwf, hser⟩ := parse_sexpr_sound l.length l le_rfl es hp
      exact absurd ⟨es, hwf, hser⟩ hnb
  · intro es hwf
    exact parse_sexpr_complete (sizeL es) es le_rfl hwf

/-- Witness for C7 at a concrete input: the stream `( a )` parses back to
its tree without error. -/
theorem parse_sexpr_spec_witness :
    parse_sexpr (serializeList [SExpr.list [SExpr.atom "a"]]) =
      .ok [SExpr.list [SExpr.atom "a"]] :=
  (parse_sexpr_spec (serializeList [SExpr.list [SExpr.atom "a"]])).2
    [SExpr.list [SExpr.atom "a"]]
    (by simp [wfListB, wfExprB])

/-- C7 (counterexample to the claim as stated): on the unmatched closing
parenthesis `)` the reader raises `ValueError("Unexpected closing
parenthesis")`, not `SyntaxError`; likewise the unterminated opening
parenthesis `(` raises `ValueError("Unmatched opening parenthesis")`. -/
theorem parse_sexpr_raises_valueerror :
    parse_sexpr [")"] = .error (.valueError "Unexpected closing parenthesis") ∧
    raisesSyntaxError (parse_sexpr [")"]) = false ∧
    parse_sexpr ["("] = .error (.valueError "Unmatched opening parenthesis") ∧
    raisesSyntaxError (parse_sexpr ["("]) = false := by
  have h1 : parse_sexpr [")"] =
      .error (.valueError "Unexpected closing parenthesis") := by
    rw [parse_sexpr, parseSingleExpr]
    simp
  have h2 : parse_sexpr ["("] =
      .error (.valueError "Unmatched opening parenthesis") := by
    rw [parse_sexpr, parseSingleExpr]
    simp [parseNested]
  exact ⟨h1, by rw [h1]; rfl, h2, by rw [h2]; rfl⟩
/-! ## Role resolution (`src/planning/roles.py`) -/

/-- An extractor binding (`BindingRef`): `kind` is `"goal"` (payload: a goal
argument index, parsed with `int(...)`) or `"role"` (payload: a role name);
agent extractors additionally use `"agent"`. -/
structure BindingRef where
  kind : String
  index_or_name : String
deriving DecidableEq, Repr

/-- `ExtractorConfig`: source predicate, argument-position bindings, and the
result argument position. `bindings` is a Python dict `arg_index → BindingRef`. -/
structure ExtractorConfig where
  predicate : String
  bindings : List (ℕ × BindingRef)
  value_arg : ℕ
deriving DecidableEq, Repr

/-- `RoleConfig`: the ordered extractor list of one role. -/
structure RoleConfig where
  extractors : List ExtractorConfig
deriving DecidableEq, Repr

/-- `DomainRoleConfig` (the fields the verified components read). -/
structure DomainRoleConfig where
  domain : String
  goal_predicates : List String
  roles : List (String × RoleConfig)
  cluster_keys : List String
  agent_role_extractors : Option (List (String × ExtractorConfig))
deriving DecidableEq, Repr

/-- Keep-first deduplication: the view of a Python set built by successive
`add` calls, observed through membership, cardinality and minimum. -/
def ldedup {α : Type} [DecidableEq α] : List α → List α
  | [] => []
  | a :: rest => a :: (ldedup rest).filter (fun b => decide (b ≠ a))

theorem mem_ldedup {α : Type} [DecidableEq α] (l : List α) (b : α) :
    b ∈ ldedup l ↔ b ∈ l := by
  induction l with
  | nil => simp [ldedup]
  | cons a rest ih =>
    simp only [ldedup, List.mem_cons, List.mem_filter, ih, decide_eq_true_eq]
    constructor
    · rintro (rfl | ⟨hb, _⟩)
      · exact Or.inl rfl
      · exact Or.inr hb
    · rintro (rfl | hb)
      · exact Or.inl rfl
      · by_cases he : b = a
        · exact Or.inl he
        · exact Or.inr ⟨hb, he⟩

theorem ldedup_nodup {α : Type} [DecidableEq α] (l : List α) :
    (ldedup l).Nodup := by
  induction l with
  | nil => simp [ldedup]
  | cons a rest ih =>
    refine List.Nodup.cons ?_ (List.Nodup.filter _ ih)
    intro hmem
    have := (List.mem_filter.mp hmem).2
    simp at this

theorem ldedup_eq_nil_iff {α : Type} [DecidableEq α] (l : List α) :
    ldedup l = [] ↔ l = [] := by
  cases l <;> simp [ldedup]

/-- Python `int(...)` on a decimal digit string (the only shape role
configurations put in a `goal:` binding payload); other strings raise in
Python and are out of scope. -/
def strToNatPy (s : String) : Option ℕ :=
  if s.data ≠ [] ∧ s.data.all (fun c => decide (48 ≤ c.val.toNat) && decide (c.val.toNat ≤ 57))
  then some (s.data.foldl (fun n c => n * 10 + (c.val.toNat - 48)) 0)
  else none

/-- One binding check of `evaluate_extractor_for_goal`: the atom's argument
at `idx` must equal the binding's referent — the goal's argument at the
bound index for kind `"goal"` (out-of-range indices fail the match), or an
already-resolved role's value for any other kind (the source's
`else:  # "role"` branch); an unresolved role reference fails the match. -/
def bindingMatches (goal : GroundAtom) (roles_so_far : RolesMap)
    (atom : GroundAtom) (idx : ℕ) (bind : BindingRef) : Bool :=
  match atom.args.get? idx with
  | none => false
  | some actual =>
    if bind.kind = "goal" then
      match goal.args.get? ((strToNatPy bind.index_or_name).getD 0) with
      | none => false
      | some expected => actual = expected
    else
      match alookup bind.index_or_name roles_so_far with
      | none => false
      | some expected => actual = expected

/-- `evaluate_extractor_for_goal(task, goal, roles_so_far, extractor)`:
result values (`atom.args[value_arg]`, when in range) of the init atoms
whose predicate matches and whose bound argument positions all match.
Python collects them into a set; the list is deduplicated wherever its
cardinality or minimum is observed. -/
def evaluate_extractor_for_goal (task : PlanningTask) (goal : GroundAtom)
    (roles_so_far : RolesMap) (extractor : ExtractorConfig) : List String :=
  (task.init.filter (fun atom =>
      atom.predicate == extractor.predicate &&
      extractor.bindings.all (fun ib => bindingMatches goal roles_so_far atom ib.1 ib.2))
    ).filterMap (fun atom => atom.args.get? extractor.value_arg)

/-- The candidate set of one role in one round: the union of its extractors'
result values (`candidates |= vals` in `extract_roles_for_goal`). -/
def roleCandidates (task : PlanningTask) (goal : GroundAtom)
    (roles_so_far : RolesMap) (rc : RoleConfig) : List String :=
  ldedup ((rc.extractors.map (evaluate_extractor_for_goal task goal roles_so_far)).flatten)

/-- Python `min` over a nonempty collection of strings: the fold of the
lexicographic minimum. -/
def listMinString : List String → Option String
  | [] => none
  | x :: xs => some (xs.foldl min x)

/-- The per-role body of a resolution round: exactly one candidate is taken
as-is (`next(iter(candidates))`), several yield `min(candidates)`, none
leaves the role unresolved for this round. -/
def resolveRoleStep (task : PlanningTask) (goal : GroundAtom)
    (roles_so_far : RolesMap) (rc : RoleConfig) : Option String :=
  let c := roleCandidates task goal roles_so_far rc
  if c.length = 1 then c.head?
  else if 1 < c.length then listMinString c
  else none

/-- One round of `extract_roles_for_goal`'s `while` loop: the remaining
roles are processed in order (Python iterates `list(remaining_roles)`, a
set whose order is unspecified; the embedding fixes configuration order);
each resolved role is written into `roles` and dropped from the remaining
set, and `changed` records whether any role resolved.  A remaining name
absent from the configuration (impossible, as the remaining set starts as
the configuration's key set) is skipped. -/
def roundStep (task : PlanningTask) (goal : GroundAtom)
    (cfgRoles : List (String × RoleConfig)) :
    RolesMap → List String → RolesMap × List String × Bool
  | roles, [] => (roles, [], false)
  | roles, r :: rest =>
    match alookup r cfgRoles with
    | none =>
      let out := roundStep task goal cfgRoles roles rest
      (out.1, r :: out.2.1, out.2.2)
    | some rc =>
      match resolveRoleStep task goal roles rc with
      | some v =>
        let out := roundStep task goal cfgRoles (aset r v roles) rest
        (out.1, out.2.1, true)
      | none =>
        let out := roundStep task goal cfgRoles roles rest
        (out.1, r :: out.2.1, out.2.2)

/-- The round loop of `extract_roles_for_goal`: up to 10 rounds
(`iteration < 10`), stopping early when no roles remain or a round makes
no progress (`changed` false). -/
def resolveLoop (task : PlanningTask) (goal : GroundAtom)
    (cfgRoles : List (String × RoleConfig)) :
    ℕ → RolesMap → List String → RolesMap × List String
  | 0, roles, remaining => (roles, remaining)
  | n + 1, roles, remaining =>
    if remaining.isEmpty then (roles, remaining)
    else
      let out := roundStep task goal cfgRoles roles remaining
      if out.2.2 then resolveLoop task goal cfgRoles n out.1 out.2.1
      else (out.1, out.2.1)

/-- `extract_roles_for_goal(task, goal, cfg, on_missing_role)`: resolve all
configured roles; roles left unresolved raise (`on_missing_role = "error"`)
or drop the goal (`None` result, modelled as `none`). -/
def extract_roles_for_goal (task : PlanningTask) (goal : GroundAtom)
    (cfg : DomainRoleConfig) (on_missing_role : String) :
    Except String (Option RolesMap) :=
  let out := resolveLoop task goal cfg.roles 10 [] (cfg.roles.map Prod.fst)
  if out.2.isEmpty then .ok (some out.1)
  else if on_missing_role = "error" then .error "Cannot extract roles for goal"
  else .ok none

/-- `extract_roles_for_goals(task, cfg, goals, on_missing_role)`: only goals
whose predicate is among `cfg.goal_predicates` are resolved; dropped goals
(`None`) are omitted from the resulting mapping. -/
def extract_roles_for_goals (task : PlanningTask) (cfg : DomainRoleConfig)
    (goals : List GroundAtom) (on_missing_role : String) :
    Except String (List (GroundAtom × RolesMap)) :=
  goals.foldlM (fun acc g =>
    if g.predicate ∈ cfg.goal_predicates then do
      let r ← extract_roles_for_goal task g cfg on_missing_role
      match r with
      | some roles => pure (aset g roles acc)
      | none => pure acc
    else pure acc) []

theorem foldl_min_mem (xs : List String) : ∀ x, xs.foldl min x ∈ x :: xs := by
  induction xs with
  | nil => intro x; simp
  | cons y ys ih =>
    intro x
    simp only [List.foldl_cons]
    have hmem := ih (min x y)
    rcases List.mem_cons.mp hmem with he | hmem'
    · rw [he]
      rcases min_choice x y with h | h <;> rw [h] <;> simp
    · exact List.mem_cons_of_mem _ (List.mem_cons_of_mem _ hmem')

theorem foldl_min_le (xs : List String) : ∀ x, ∀ w ∈ x :: xs, xs.foldl min x ≤ w := by
  induction xs with
  | nil =>
    intro x w hw
    simp only [List.mem_cons, List.not_mem_nil, or_false] at hw
    subst hw
    exact le_refl _
  | cons y ys ih =>
    intro x w hw
    simp only [List.foldl_cons]
    simp only [List.mem_cons] at hw
    have hhead := ih (min x y) (min x y) (List.mem_cons_self _ _)
    rcases hw with rfl | rfl | hw
    · exact le_trans hhead (min_le_left _ _)
    · exact le_trans hhead (min_le_right _ _)
    · exact ih (min x y) w (List.mem_cons_of_mem _ hw)

theorem listMinString_spec (l : List String) (h : l ≠ []) :
    ∃ m, listMinString l = some m ∧ m ∈ l ∧ ∀ w ∈ l, m ≤ w := by
  cases l with
  | nil => exact absurd rfl h
  | cons x xs =>
    exact ⟨xs.foldl min x, rfl, foldl_min_mem xs x, foldl_min_le xs x⟩

theorem roundStep_remaining_sublist (task : PlanningTask) (goal : GroundAtom)
    (cfgRoles : List (String × RoleConfig)) :
    ∀ (remaining : List String) (roles : RolesMap),
      (roundStep task goal cfgRoles roles remaining).2.1.Sublist remaining := by
  intro remaining
  induction remaining with
  | nil => intro roles; simp [roundStep]
  | cons r rest ih =>
    intro roles
    rcases hcfg : alookup r cfgRoles with _ | rc
    · simp only [roundStep, hcfg]
      exact List.Sublist.cons₂ r (ih roles)
    · rcases hres : resolveRoleStep task goal roles rc with _ | v
      · simp only [roundStep, hcfg, hres]
        exact List.Sublist.cons₂ r (ih roles)
      · simp only [roundStep, hcfg, hres]
        exact List.Sublist.cons r (ih (aset r v roles))

theorem alookup_aset_ne {κ β : Type} [DecidableEq κ] (k k' : κ) (v : β)
    (d : List (κ × β)) (h : k' ≠ k) :
    alookup k (aset k' v d) = alookup k d := by
  induction d with
  | nil => simp [aset, alookup, h]
  | cons kv rest ih =>
    simp only [aset]
    by_cases he : kv.1 = k'
    · subst he
      simp [alookup, h, Ne.symm h]
    · simp only [if_neg he, alookup, ih]

theorem alookup_aset_self {κ β : Type} [DecidableEq κ] (k : κ) (v : β)
    (d : List (κ × β)) : alookup k (aset k v d) = some v := by
  induction d with
  | nil => simp [aset, alookup]
  | cons kv rest ih =>
    simp only [aset]
    by_cases he : kv.1 = k
    · simp [he, alookup]
    · simp only [if_neg he, alookup, ih, if_neg he]

theorem roundStep_preserves_absent (task : PlanningTask) (goal : GroundAtom)
    (cfgRoles : List (String × RoleConfig)) (r : String) :
    ∀ (remaining : List String) (roles : RolesMap), r ∉ remaining →
      alookup r (roundStep task goal cfgRoles roles remaining).1 =
        alookup r roles := by
  intro remaining
  induction remaining with
  | nil => intro roles _; simp [roundStep]
  | cons r' rest ih =>
    intro roles hmem
    have hne : r ≠ r' := fun he => hmem (he ▸ List.mem_cons_self r' rest)
    have hrest : r ∉ rest := fun hc => hmem (List.mem_cons_of_mem r' hc)
    rcases hcfg : alookup r' cfgRoles with _ | rc
    · simp only [roundStep, hcfg]
      exact ih roles hrest
    · rcases hres : resolveRoleStep task goal roles rc with _ | v
      · simp only [roundStep, hcfg, hres]
        exact ih roles hrest
      · simp only [roundStep, hcfg, hres]
        rw [ih (aset r' v roles) hrest, alookup_aset_ne r r' v roles (Ne.symm hne)]

/-- C8: in a resolution round of `extract_roles_for_goal`, whenever the
candidate set of a role (the union over its extractors of matching
init-atom result values) is non-empty, the role resolves in that round —
to its single candidate when there is one, and otherwise to the
lexicographically smallest candidate; concretely, when role `r` heads the
remaining list and `r` does not recur, after the round `r` is bound to the
minimum candidate, is no longer remaining, and the round reports
progress. -/
theorem role_resolution_resolves_nonempty (task : PlanningTask)
    (goal : GroundAtom) (cfgRoles : List (String × RoleConfig))
    (roles : RolesMap) (r : String) (rc : RoleConfig) (rest : List String)
    (hcfg : alookup r cfgRoles = some rc)
    (hne : roleCandidates task goal roles rc ≠ [])
    (hnr : r ∉ rest) :
    ∃ v, resolveRoleStep task goal roles rc = some v ∧
      v ∈ roleCandidates task goal roles rc ∧
      (∀ w ∈ roleCandidates task goal roles rc, v ≤ w) ∧
      alookup r (roundStep task goal cfgRoles roles (r :: rest)).1 = some v ∧
      r ∉ (roundStep task goal cfgRoles roles (r :: rest)).2.1 ∧
      (roundStep task goal cfgRoles roles (r :: rest)).2.2 = true := by
  obtain ⟨m, hm, hmem, hmin⟩ := listMinString_spec _ hne
  have hstep : resolveRoleStep task goal roles rc = some m := by
    unfold resolveRoleStep
    by_cases h1 : (roleCandidates task goal roles rc).length = 1
    · obtain ⟨a, ha⟩ := List.length_eq_one.mp h1
      rw [if_pos h1, ha]
      rw [ha] at hm
      cases hm' : listMinString [a] with
      | none => simp [listMinString] at hm'
      | some b =>
        rw [hm'] at hm
        simp [listMinString] at hm'
        simp [hm', hm]
    · have h2 : 1 < (roleCandidates task goal roles rc).length := by
        rcases Nat.lt_or_ge (roleCandidates task goal roles rc).length 1 with h | h
        · interval_cases h' : (roleCandidates task goal roles rc).length
          · exact absurd (List.length_eq_zero.mp h') hne
        · omega
      rw [if_neg h1, if_pos h2, hm]
  refine ⟨m, hstep, hmem, hmin, ?_, ?_, ?_⟩
  · simp only [roundStep, hcfg, hstep]
    rw [roundStep_preserves_absent task goal cfgRoles r rest _ hnr]
    exact alookup_aset_self r m roles
  · simp only [roundStep, hcfg, hstep]
    intro hc
    exact hnr ((roundStep_remaining_sublist task goal cfgRoles rest
      (aset r m roles)).mem hc)
  · simp [roundStep, hcfg, hstep]

/-- Witness for C8: role `"loc"` with two candidates `"l2"`, `"l1"` from two
matching init atoms; the round resolves it to the smaller one, `"l1"`. -/
theorem role_resolution_resolves_nonempty_witness :
    ∃ v, resolveRoleStep
        ⟨[⟨"near", ["r1", "l2"]⟩, ⟨"near", ["r1", "l1"]⟩], [gAtom1]⟩ gAtom1 []
        ⟨[⟨"near", [(0, ⟨"goal", "0"⟩)], 1⟩]⟩ = some v ∧
      v ∈ roleCandidates
        ⟨[⟨"near", ["r1", "l2"]⟩, ⟨"near", ["r1", "l1"]⟩], [gAtom1]⟩ gAtom1 []
        ⟨[⟨"near", [(0, ⟨"goal", "0"⟩)], 1⟩]⟩ ∧
      (∀ w ∈ roleCandidates
        ⟨[⟨"near", ["r1", "l2"]⟩, ⟨"near", ["r1", "l1"]⟩], [gAtom1]⟩ gAtom1 []
        ⟨[⟨"near", [(0, ⟨"goal", "0"⟩)], 1⟩]⟩, v ≤ w) ∧
      alookup "loc" (roundStep
        ⟨[⟨"near", ["r1", "l2"]⟩, ⟨"near", ["r1", "l1"]⟩], [gAtom1]⟩ gAtom1
        [("loc", ⟨[⟨"near", [(0, ⟨"goal", "0"⟩)], 1⟩]⟩)] [] ["loc"]).1 = some v ∧
      "loc" ∉ (roundStep
        ⟨[⟨"near", ["r1", "l2"]⟩, ⟨"near", ["r1", "l1"]⟩], [gAtom1]⟩ gAtom1
        [("loc", ⟨[⟨"near", [(0, ⟨"goal", "0"⟩)], 1⟩]⟩)] [] ["loc"]).2.1 ∧
      (roundStep
        ⟨[⟨"near", ["r1", "l2"]⟩, ⟨"near", ["r1", "l1"]⟩], [gAtom1]⟩ gAtom1
        [("loc", ⟨[⟨"near", [(0, ⟨"goal", "0"⟩)], 1⟩]⟩)] [] ["loc"]).2.2 = true :=
  role_resolution_resolves_nonempty
    ⟨[⟨"near", ["r1", "l2"]⟩, ⟨"near", ["r1", "l1"]⟩], [gAtom1]⟩ gAtom1
    [("loc", ⟨[⟨"near", [(0, ⟨"goal", "0"⟩)], 1⟩]⟩)] [] "loc"
    ⟨[⟨"near", [(0, ⟨"goal", "0"⟩)], 1⟩]⟩ []
    (by decide) (by decide) (by decide)

/-- A concrete subtask used in closed instances. -/
def stConcrete : SubTask :=
  ⟨0, [gAtom1], [], [("loc", some "l1")], [(gAtom1, [("loc", "l1")])]⟩

/-! ## Allocation (`src/planning/allocation.py`) -/

/-- `v.split("|")` on the character level (the source only ever splits on
`"|"`). -/
def splitBarChars : List Char → List (List Char)
  | [] => [[]]
  | c :: rest =>
    if c = '|' then [] :: splitBarChars rest
    else
      match splitBarChars rest with
      | [] => [[c]]
      | g :: gs => (c :: g) :: gs

/-- `required_value.split('|')` as a list of strings. -/
def splitBar (s : String) : List String := (splitBarChars s.data).map (fun cs => ⟨cs⟩)

/-- One binding check of `extract_agent_roles`: kind `"agent"` compares
against the agent's own name for payload `"self"` and against the literal
payload otherwise; kind `"role"` compares against an already-resolved
agent-role value; any other kind fails the match (`ok = False`). -/
def agentBindingMatches (agent_name : String) (agent_roles : RolesMap)
    (atom : GroundAtom) (idx : ℕ) (bind : BindingRef) : Bool :=
  match atom.args.get? idx with
  | none => false
  | some actual =>
    if bind.kind = "agent" then
      actual = (if bind.index_or_name = "self" then agent_name else bind.index_or_name)
    else if bind.kind = "role" then
      match alookup bind.index_or_name agent_roles with
      | none => false
      | some expected => actual = expected
    else false

/-- The candidate set of one agent role in one resolution round of
`extract_agent_roles`. -/
def agentCandidates (task : PlanningTask) (agent_name : String)
    (agent_roles : RolesMap) (extractor : ExtractorConfig) : List String :=
  ldedup ((task.init.filter (fun atom =>
      atom.predicate == extractor.predicate &&
      extractor.bindings.all (fun ib =>
        agentBindingMatches agent_name agent_roles atom ib.1 ib.2))
    ).filterMap (fun atom => atom.args.get? extractor.value_arg))

/-- The per-role body of an `extract_agent_roles` round: one candidate is
taken as-is, several yield `min(candidates)`, none defers. -/
def resolveAgentRoleStep (task : PlanningTask) (agent_name : String)
    (agent_roles : RolesMap) (extractor : ExtractorConfig) : Option String :=
  let c := agentCandidates task agent_name agent_roles extractor
  if c.length = 1 then c.head?
  else if 1 < c.length then listMinString c
  else none

/-- One round of `extract_agent_roles`, processing remaining role names in
configuration order. -/
def agentRoundStep (task : PlanningTask) (agent_name : String)
    (exts : List (String × ExtractorConfig)) :
    RolesMap → List String → RolesMap × List String × Bool
  | roles, [] => (roles, [], false)
  | roles, r :: rest =>
    match alookup r exts with
    | none =>
      let out := agentRoundStep task agent_name exts roles rest
      (out.1, r :: out.2.1, out.2.2)
    | some ex =>
      match resolveAgentRoleStep task agent_name roles ex with
      | some v =>
        let out := agentRoundStep task agent_name exts (aset r v roles) rest
        (out.1, out.2.1, true)
      | none =>
        let out := agentRoundStep task agent_name exts roles rest
        (out.1, r :: out.2.1, out.2.2)

/-- The round loop of `extract_agent_roles` (at most 10 iterations, early
exit on no progress). -/
def agentResolveLoop (task : PlanningTask) (agent_name : String)
    (exts : List (String × ExtractorConfig)) :
    ℕ → RolesMap → List String → RolesMap × List String
  | 0, roles, remaining => (roles, remaining)
  | n + 1, roles, remaining =>
    if remaining.isEmpty then (roles, remaining)
    else
      let out := agentRoundStep task agent_name exts roles remaining
      if out.2.2 then agentResolveLoop task agent_name exts n out.1 out.2.1
      else (out.1, out.2.1)

/-- `extract_agent_roles(task, agent_name, cfg)`: `{}` when no agent-role
extractors are configured; otherwise the roles resolved by the round loop
(roles that stay unresolved are simply absent — no error). -/
def extract_agent_roles (task : PlanningTask) (agent_name : String)
    (cfg : DomainRoleConfig) : RolesMap :=
  match cfg.agent_role_extractors with
  | none => []
  | some exts => (agentResolveLoop task agent_name exts 10 [] (exts.map Prod.fst)).1

/-- The per-role check of `can_execute_subtask`: a composite required value
(containing `'|'`) matches if the agent's value is one of its alternatives,
a simple value must match exactly. -/
def matchesRequired (agent_value required_value : String) : Bool :=
  if required_value.data.contains '|' then decide (agent_value ∈ splitBar required_value)
  else agent_value == required_value

/-- `can_execute_subtask(subtask, agent_name, agent_roles)`: an agent
missing from `agent_roles` is unconstrained; otherwise every
`role_signature` key the agent also has a value for must match.  A `None`
signature value would raise a `TypeError` in Python (`'|' in None`); that
unreachable branch is modelled as a failed match. -/
def can_execute_subtask (subtask : SubTask) (agent_name : String)
    (agent_roles : List (String × RolesMap)) : Bool :=
  match alookup agent_name agent_roles with
  | none => true
  | some agent_role_values =>
    subtask.role_signature.all fun kv =>
      match alookup kv.1 agent_role_values with
      | none => true
      | some agent_value =>
        match kv.2 with
        | some required_value => matchesRequired agent_value required_value
        | none => false

/-- `compute_cost(subtask, agent_name, capabilities, agent_roles, mode)`:
infeasible pairs cost `+∞` (modelled as `none`); under
`"inverse_capability_size"` a feasible pair costs
`1 / (1 + |capabilities[agent]|)`; other modes raise `NotImplementedError`. -/
def compute_cost (subtask : SubTask) (agent_name : String)
    (capabilities : List (String × List String))
    (agent_roles : List (String × RolesMap)) (mode : String) :
    Except String (Option ℚ) :=
  if can_execute_subtask subtask agent_name agent_roles = false then .ok none
  else if mode = "inverse_capability_size" then
    .ok (some (1 / (1 + ((ldedup ((alookup agent_name capabilities).getD [])).length : ℚ))))
  else .error "NotImplementedError"

/-- Python `cost < best_cost` on `float('inf')`-extended costs. -/
def costLt : Option ℚ → Option ℚ → Bool
  | none, _ => false
  | some _, none => true
  | some a, some b => decide (a < b)

/-- Python `cost == best_cost and cost != float('inf')`. -/
def costEqNotInf : Option ℚ → Option ℚ → Bool
  | some a, some b => decide (a = b)
  | _, _ => false

/-- `allocate_subtasks(subtasks, capabilities, task, role_config, cost_mode)`:
agent roles are extracted for every agent; each subtask receives the
feasible agent of minimum cost, ties broken by the smallest agent name;
a subtask with an empty best-agent list raises a `RuntimeError`. -/
def allocate_subtasks (subtasks : List SubTask)
    (capabilities : List (String × List String)) (task : PlanningTask)
    (role_config : DomainRoleConfig) (cost_mode : String) :
    Except String (List (ℕ × String)) := do
  let agent_roles := capabilities.map fun kv =>
    (kv.1, extract_agent_roles task kv.1 role_config)
  subtasks.foldlM (fun assignment subtask => do
    let best ← capabilities.foldlM (fun (best : Option ℚ × List String) kv => do
        let cost ← compute_cost subtask kv.1 capabilities agent_roles cost_mode
        if costLt cost best.1 then pure (cost, [kv.1])
        else if costEqNotInf cost best.1 then pure (best.1, best.2 ++ [kv.1])
        else pure best)
      ((none : Option ℚ), ([] : List String))
    match best.2 with
    | [] => Except.error "No agents available for subtask"
    | a :: rest => pure (aset subtask.id (rest.foldl min a) assignment))
    []

/-- Agent capabilities with one specialist (`"a1"`, one action) and one
generalist (`"b3"`, three actions). -/
def capsC1 : List (String × List String) :=
  [("a1", ["drive"]), ("b3", ["drive", "weld", "lift"])]

/-- A role configuration without agent-role extractors: every agent is
feasible for every subtask. -/
def roleCfgNoAgent : DomainRoleConfig := ⟨"dom", ["at"], [], [], none⟩

/-- The planning task of the allocation instance. -/
def taskC1 : PlanningTask := ⟨[], [gAtom1]⟩

theorem c1_cost_a1 :
    compute_cost stConcrete "a1" capsC1 [("a1", []), ("b3", [])]
      "inverse_capability_size" = .ok (some (1 / 2)) := by
  have hexec : can_execute_subtask stConcrete "a1" [("a1", []), ("b3", [])] = true := by
    decide
  have hlen : (ldedup ((alookup "a1" capsC1).getD [])).length = 1 := by decide
  simp only [compute_cost, hexec, hlen]
  norm_num

theorem c1_cost_b3 :
    compute_cost stConcrete "b3" capsC1 [("a1", []), ("b3", [])]
      "inverse_capability_size" = .ok (some (1 / 4)) := by
  have hexec : can_execute_subtask stConcrete "b3" [("a1", []), ("b3", [])] = true := by
    decide
  have hlen : (ldedup ((alookup "b3" capsC1).getD [])).length = 3 := by decide
  simp only [compute_cost, hexec, hlen]
  norm_num

/-- C1 (code-bug evidence): under `inverse_capability_size` both agents are
role-feasible; the specialist `"a1"` (1 capability) costs `1/2` and the
generalist `"b3"` (3 capabilities) costs `1/4`; `allocate_subtasks`
minimises cost and therefore assigns the generalist `"b3"` — the opposite
of the documented preference for the more specialized agent. -/
theorem allocation_prefers_less_specialized :
    compute_cost stConcrete "a1" capsC1 [("a1", []), ("b3", [])]
      "inverse_capability_size" = .ok (some (1 / 2)) ∧
    compute_cost stConcrete "b3" capsC1 [("a1", []), ("b3", [])]
      "inverse_capability_size" = .ok (some (1 / 4)) ∧
    ((1 : ℚ) / 4 < 1 / 2) ∧
    allocate_subtasks [stConcrete] capsC1 taskC1 roleCfgNoAgent
      "inverse_capability_size" = .ok [(0, "b3")] := by
  refine ⟨c1_cost_a1, c1_cost_b3, by norm_num, ?_⟩
  have har : capsC1.map (fun kv =>
      (kv.1, extract_agent_roles taskC1 kv.1 roleCfgNoAgent)) =
      [("a1", []), ("b3", [])] := by decide
  have h1 : costLt (some ((1 : ℚ) / 2)) none = true := rfl
  have h2 : costLt (some ((1 : ℚ) / 4)) (some ((1 : ℚ) / 2)) = true := by
    simp only [costLt, decide_eq_true_eq]
    norm_num
  have hbind : ∀ {α β : Type} (a : α) (f : α → Except String β),
      (Except.ok a >>= f) = f a := fun a f => rfl
  have hpure : ∀ {α : Type} (a : α), (pure a : Except String α) = Except.ok a :=
    fun a => rfl
  simp only [allocate_subtasks, har, List.foldlM, hbind, hpure, c1_cost_a1,
    c1_cost_b3, h1, h2, eq_self_iff_true, if_true, List.foldl]
  rfl

/-- Witness for C4: a body that always produces two subtasks, a budget of
one, and `max_retries = 0` — the pipeline must fail on the first attempt. -/
theorem build_subtasks_with_retry_spec_witness :
    build_subtasks_with_retry (σ := Unit) (fun _ _ => ([stConcrete, stConcrete], ()))
      1 (1/2) 0 0 () = .error "Cannot satisfy max_subtasks" :=
  ((build_subtasks_with_retry_spec (fun _ _ => ([stConcrete, stConcrete], ()))
      1 (1/2) 0 0 ()).2.2.2 rfl (by decide)).1

/-! ## Subtask partition (`finer_partition_by_roles`, `src/planning/subtasks.py`)
and the constraint-aware merge pass (`src/planning/constraint_aware_merge.py`) -/

/-- The constraint-configuration dict handed to the merge pass:
`binary_constraints`, `type_constraints`, `goal_object_index`. -/
structure ConstraintConfig where
  binary_constraints : List String
  type_constraints : List String
  goal_object_index : ℕ
deriving DecidableEq, Repr

/-- `groups.setdefault(key, []).append(value)` on an insertion-ordered dict:
append to an existing bucket in place, or append a new bucket. -/
def addToBucket {κ α : Type} [DecidableEq κ] (k : κ) (a : α) :
    List (κ × List α) → List (κ × List α)
  | [] => [(k, [a])]
  | (k', as) :: rest =>
    if k' = k then (k', as ++ [a]) :: rest else (k', as) :: addToBucket k a rest

/-- Grouping a list by a key function, preserving first-occurrence key order
and within-bucket order (the Python `for ...: groups.setdefault(...)` idiom). -/
def bucketBy {κ α : Type} [DecidableEq κ] (key : α → κ) (l : List α) :
    List (κ × List α) :=
  l.foldl (fun acc a => addToBucket (key a) a acc) []

/-- `finer_partition_by_roles(clusters, role_assignments, cfg, landmarks)`:
within each cluster, goals that have a role assignment are grouped by their
tuple of values for `cfg.cluster_keys` (`roles.get(r, None)`, hence
`Option`); each group becomes one subtask with consecutive ids starting at
0, landmark union, the zip signature and the group's per-goal roles. -/
def finer_partition_by_roles (clusters : List (List GroundAtom))
    (role_assignments : List (GroundAtom × RolesMap))
    (cfg : DomainRoleConfig)
    (landmarks : List (GroundAtom × List String)) : List SubTask :=
  (clusters.foldl (fun (acc : List SubTask × ℕ) cluster =>
    let withRoles := cluster.filterMap (fun g =>
      (alookup g role_assignments).map (fun roles => (g, roles)))
    let groups := bucketBy (fun p : GroundAtom × RolesMap =>
      cfg.cluster_keys.map (fun r => alookup r p.2)) withRoles
    groups.foldl (fun (acc2 : List SubTask × ℕ) kv =>
      let group_goals := kv.2.map Prod.fst
      (acc2.1 ++ [{ id := acc2.2
                    goals := group_goals
                    landmark_predicates :=
                      ldedup (group_goals.flatMap (fun g => (alookup g landmarks).getD []))
                    role_signature := cfg.cluster_keys.zip kv.1
                    roles_per_goal := kv.2 }], acc2.2 + 1)) acc) ([], 0)).1

/-- Byte-wise (code-point) lexicographic comparison of character lists,
Python's string `<=`. -/
def charListLe : List Char → List Char → Bool
  | [], _ => true
  | _ :: _, [] => false
  | a :: as, b :: bs =>
    if a.val.toNat < b.val.toNat then true
    else if a.val.toNat = b.val.toNat then charListLe as bs
    else false

/-- Python string `<=` (code-point lexicographic). -/
def strLeB (a b : String) : Bool := charListLe a.data b.data

/-- Ordering of signature values: Python raises `TypeError` comparing `None`
with `str`; the unreachable mixed case orders `None` first. -/
def optStrLeB : Option String → Option String → Bool
  | none, _ => true
  | some _, none => false
  | some a, some b => strLeB a b

/-- Python tuple comparison of `(key, value)` signature items. -/
def sigPairLeB (p q : String × Option String) : Bool :=
  if p.1 = q.1 then optStrLeB p.2 q.2 else strLeB p.1 q.1

/-- `tuple(sorted(subtask.role_signature.items()))`: the canonical grouping
key of `_merge_within_same_role_signature`. -/
def sortedSig (sig : List (String × Option String)) : List (String × Option String) :=
  List.insertionSort (fun p q => sigPairLeB p q = true) sig

/-- `"|".join(parts)`. -/
def joinBar (parts : List String) : String :=
  match parts with
  | [] => ""
  | p :: rest => rest.foldl (fun acc q => acc ++ "|" ++ q) p

/-- The disjunction value built by `_merge_role_signatures_constraint_aware`
for two differing values:
`"|".join(sorted(set(v1.split("|")) | set(v2.split("|"))))`. -/
def joinBarSorted (v1 v2 : String) : String :=
  joinBar (List.insertionSort (fun a b => strLeB a b = true)
    (ldedup (splitBar v1 ++ splitBar v2)))

/-- `_merge_role_signatures_constraint_aware(signature1, signature2)`: start
from a copy of the first signature and fold in the second one's items —
missing keys are added, identical values pass through, differing values
become the sorted deduplicated `|`-joined disjunction.  A differing pair
involving `None` would raise `TypeError` in Python (`None.split`); the
unreachable case is modelled as `none`.  The per-item body is the named
step below; the routine folds it over the second signature. -/
def mergeSigStep (merged : List (String × Option String))
    (k2 : String) (v2 : Option String) : List (String × Option String) :=
  match alookup k2 merged with
  | some v1 =>
    if v1 = v2 then merged
    else
      match v1, v2 with
      | some s1, some s2 => aset k2 (some (joinBarSorted s1 s2)) merged
      | _, _ => aset k2 none merged
  | none => aset k2 v2 merged

def mergeRoleSignaturesCA (signature1 signature2 : List (String × Option String)) :
    List (String × Option String) :=
  signature2.foldl (fun merged kv => mergeSigStep merged kv.1 kv.2) signature1

/-- `_merge_two_constraint_aware(subtask1, subtask2, task, new_id,
constraint_config)`: concatenated goals, landmark-set union, the
constraint-aware signature merge, and `roles_per_goal` rebuilt by
`update`-ing an empty dict with both inputs. -/
def mergeTwoCA (subtask1 subtask2 : SubTask) (task : PlanningTask) (new_id : ℕ)
    (cc : ConstraintConfig) : SubTask :=
  { id := new_id
    goals := subtask1.goals ++ subtask2.goals
    landmark_predicates :=
      ldedup (subtask1.landmark_predicates ++ subtask2.landmark_predicates)
    role_signature :=
      mergeRoleSignaturesCA subtask1.role_signature subtask2.role_signature
    roles_per_goal :=
      aupdate (aupdate [] subtask1.roles_per_goal) subtask2.roles_per_goal }

/-- Python `f"{v1}|{v2}"` on signature values (`None` prints as `"None"`). -/
def pyStr : Option String → String
  | none => "None"
  | some s => s

/-- `_merge_two_subtasks(subtask1, subtask2, new_id)`
(`src/planning/subtasks.py`): like the constraint-aware merge but the
signature merge keeps the first subtask's keys only (keys present only in
the second are dropped) and joins differing values as `f"{v1}|{v2}"` —
in input order, without sorting or deduplication. -/
def mergeTwoSubtasks (subtask1 subtask2 : SubTask) (new_id : ℕ) : SubTask :=
  { id := new_id
    goals := subtask1.goals ++ subtask2.goals
    landmark_predicates :=
      ldedup (subtask1.landmark_predicates ++ subtask2.landmark_predicates)
    role_signature :=
      subtask2.role_signature.foldl (fun rs kv =>
        match alookup kv.1 rs with
        | some v =>
          if v ≠ kv.2 then aset kv.1 (some (pyStr v ++ "|" ++ pyStr kv.2)) rs
          else rs
        | none => rs) subtask1.role_signature
    roles_per_goal :=
      aupdate subtask1.roles_per_goal subtask2.roles_per_goal }

/-- The target objects of a goal list: each goal's argument at
`goal_object_index` (goals with too few arguments are skipped). -/
def extractTargetObjects (goal_object_index : ℕ) (goals : List GroundAtom) :
    List String :=
  goals.filterMap (fun g => g.args.get? goal_object_index)

/-- The key set of `extract_binary_constraints(task, [p])[p]`: first
arguments of the `p`-facts with at least two arguments. -/
def binaryFroms (task : PlanningTask) (p : String) : List String :=
  ldedup ((task.init.filter (fun a =>
    a.predicate == p && decide (2 ≤ a.args.length))).filterMap
      (fun a => a.args.get? 0))

/-- `extract_binary_constraints(task, [p])[p][fromObj]`: second arguments of
the `p`-facts whose first argument is `fromObj`. -/
def accessibleTos (task : PlanningTask) (p : String) (fromObj : String) :
    List String :=
  (task.init.filter (fun a =>
    a.predicate == p && decide (2 ≤ a.args.length) &&
      decide (a.args.get? 0 = some fromObj))).filterMap (fun a => a.args.get? 1)

/-- `find_common_accessible_objects(target_objects, access_constraint, name)`:
the from-objects whose accessible set contains every target; empty when the
target list is empty. -/
def find_common_accessible_objects (task : PlanningTask) (p : String)
    (target_objects : List String) : List String :=
  if target_objects.isEmpty then []
  else (binaryFroms task p).filter (fun x =>
    target_objects.all (fun t => decide (t ∈ accessibleTos task p x)))

/-- `extract_unary_type_constraints(task, [p])[p][obj]`: the type value of
`obj` under predicate `p` — the last matching init fact wins, as in the
Python dict build. -/
def typeValueOf (task : PlanningTask) (p : String) (obj : String) :
    Option String :=
  ((task.init.filter (fun a =>
    a.predicate == p && decide (2 ≤ a.args.length) &&
      decide (a.args.get? 0 = some obj))).filterMap
        (fun a => a.args.get? 1)).getLast?

/-- The `required_types` set of `is_compatible_for_merging` for one type
predicate. -/
def requiredTypes (task : PlanningTask) (p : String) (targets : List String) :
    List String :=
  ldedup (targets.filterMap (typeValueOf task p))

/-- `is_compatible_for_merging(subtask1, subtask2, task,
max_goals_per_subtask, constraint_config)`: goal-count cap first; with no
constraint predicates configured, always compatible; otherwise every binary
constraint needs a non-empty common-accessible set over the combined
targets and every type constraint allows at most one distinct type. -/
def is_compatible_for_merging (subtask1 subtask2 : SubTask)
    (task : PlanningTask) (max_goals_per_subtask : ℕ)
    (cc : ConstraintConfig) : Bool :=
  if max_goals_per_subtask < subtask1.goals.length + subtask2.goals.length then
    false
  else if cc.binary_constraints.isEmpty && cc.type_constraints.isEmpty then true
  else
    let all_targets := extractTargetObjects cc.goal_object_index subtask1.goals ++
      extractTargetObjects cc.goal_object_index subtask2.goals
    (cc.binary_constraints.all (fun p =>
      !(find_common_accessible_objects task p all_targets).isEmpty)) &&
    (cc.type_constraints.all (fun p =>
      decide ((requiredTypes task p all_targets).length ≤ 1)))

/-- `max(s.id for s in subtasks)` (call sites guarantee non-emptiness). -/
def maxId (subtasks : List SubTask) : ℕ :=
  subtasks.foldl (fun m s => max m s.id) 0

/-- The inner `while i < len(remaining)` loop of
`_merge_group_with_constraints`: scan the remaining subtasks in order,
absorbing each compatible one into `current` (consuming one fresh id per
merge) and keeping the incompatible ones. Returns the final `current`, the
next id and the kept list. -/
def absorbCompatible (task : PlanningTask) (maxg : ℕ) (cc : ConstraintConfig) :
    SubTask → ℕ → List SubTask → SubTask × ℕ × List SubTask
  | cur, nid, [] => (cur, nid, [])
  | cur, nid, c :: rest =>
    if is_compatible_for_merging cur c task maxg cc then
      absorbCompatible task maxg cc (mergeTwoCA cur c task nid cc) (nid + 1) rest
    else
      let out := absorbCompatible task maxg cc cur nid rest
      (out.1, out.2.1, c :: out.2.2)

/-- The outer `while remaining` loop of `_merge_group_with_constraints`,
with an explicit iteration budget; each iteration pops at least one
subtask, so a budget of the group's length never runs out (the `0` case is
unreachable from the wrapper below). -/
def mergeGroupGo (task : PlanningTask) (maxg : ℕ) (cc : ConstraintConfig) :
    ℕ → List SubTask → ℕ → List SubTask
  | 0, _, _ => []
  | _ + 1, [], _ => []
  | fuel + 1, s :: rest, nid =>
    let out := absorbCompatible task maxg cc s nid rest
    out.1 :: mergeGroupGo task maxg cc fuel out.2.2 out.2.1

/-- `_merge_group_with_constraints(group, task, max_goals_per_subtask,
start_id, constraint_config)`. -/
def merge_group_with_constraints (task : PlanningTask) (maxg : ℕ)
    (cc : ConstraintConfig) (group : List SubTask) (start_id : ℕ) :
    List SubTask :=
  mergeGroupGo task maxg cc group.length group start_id

/-- `_merge_within_same_role_signature(subtasks, task, max_goals_per_subtask,
constraint_config)`: group by the sorted signature items; singleton groups
pass through unchanged; other groups are merged under constraints, after
which the running id is advanced by the number of produced subtasks (not
by the number of ids actually consumed — see the id-collision theorem). -/
def merge_within_same_role_signature (subtasks : List SubTask)
    (task : PlanningTask) (maxg : ℕ) (cc : ConstraintConfig) : List SubTask :=
  let signature_groups := bucketBy (fun s : SubTask => sortedSig s.role_signature)
    subtasks
  (signature_groups.foldl (fun (acc : List SubTask × ℕ) kv =>
    if kv.2.length = 1 then (acc.1 ++ kv.2, acc.2)
    else
      let gm := merge_group_with_constraints task maxg cc kv.2 acc.2
      (acc.1 ++ gm, acc.2 + gm.length)) ([], maxId subtasks + 1)).1

/-- The partner search of `_merge_compatible_across_roles`: index (into the
tail) of the first compatible subtask. -/
def findCompatIdx (task : PlanningTask) (maxg : ℕ) (cc : ConstraintConfig)
    (s : SubTask) : List SubTask → Option ℕ
  | [] => none
  | c :: rest =>
    if is_compatible_for_merging s c task maxg cc then some 0
    else (findCompatIdx task maxg cc s rest).map (· + 1)

/-- One pass of `_merge_compatible_across_roles`' `while changed` loop:
scan left to right; each unused subtask merges with the first compatible
partner to its right (which is consumed), or is kept as is.  Returns the
new list, the `changed` flag and the next id.  The iteration budget equals
the list length and never runs out. -/
def onePassAcross (task : PlanningTask) (maxg : ℕ) (cc : ConstraintConfig) :
    ℕ → List SubTask → ℕ → List SubTask × Bool × ℕ
  | 0, _, nid => ([], false, nid)
  | _ + 1, [], nid => ([], false, nid)
  | fuel + 1, s :: rest, nid =>
    match findCompatIdx task maxg cc s rest with
    | some j =>
      let partner := (rest.get? j).getD s
      let merged := mergeTwoCA s partner task nid cc
      let out := onePassAcross task maxg cc fuel (rest.eraseIdx j) (nid + 1)
      (merged :: out.1, true, out.2.2)
    | none =>
      let out := onePassAcross task maxg cc fuel rest nid
      (s :: out.1, out.2.1, out.2.2)

/-- The `while changed` loop of `_merge_compatible_across_roles`: repeat
passes until one makes no merge.  Each changing pass strictly shrinks the
list, so a budget of `length + 1` passes never runs out. -/
def mergeAcrossLoop (task : PlanningTask) (maxg : ℕ) (cc : ConstraintConfig) :
    ℕ → List SubTask → ℕ → List SubTask
  | 0, l, _ => l
  | fuel + 1, l, nid =>
    let out := onePassAcross task maxg cc l.length l nid
    if out.2.1 then mergeAcrossLoop task maxg cc fuel out.1 out.2.2 else out.1

/-- `_merge_compatible_across_roles(subtasks, task, max_goals_per_subtask,
constraint_config)`. -/
def merge_compatible_across_roles (subtasks : List SubTask)
    (task : PlanningTask) (maxg : ℕ) (cc : ConstraintConfig) : List SubTask :=
  mergeAcrossLoop task maxg cc (subtasks.length + 1) subtasks (maxId subtasks + 1)

/-- `_compatibility_score_with_constraints(subtask1, subtask2, task,
constraint_config)`; all contributions are integers. -/
def compatibilityScoreCA (s1 s2 : SubTask) (task : PlanningTask)
    (cc : ConstraintConfig) : ℤ :=
  let targets := extractTargetObjects cc.goal_object_index s1.goals ++
    extractTargetObjects cc.goal_object_index s2.goals
  (cc.binary_constraints.foldl (fun sc p =>
    sc + 10 * ((find_common_accessible_objects task p targets).length : ℤ)) 0) +
  (cc.type_constraints.foldl (fun sc p =>
    sc + if (requiredTypes task p targets).length ≤ 1 then 20 else 0) 0) +
  2 * ((ldedup (s1.landmark_predicates.filter
    (fun x => decide (x ∈ s2.landmark_predicates)))).length : ℤ) +
  (10 - ((s1.goals.length + s2.goals.length : ℕ) : ℤ))

/-- The ordered scan of index pairs `i < j` of
`_aggressive_constraint_aware_merge`. -/
def pairIndices (n : ℕ) : List (ℕ × ℕ) :=
  (List.range n).flatMap (fun i =>
    ((List.range n).filter (fun j => decide (i < j))).map (fun j => (i, j)))

/-- A placeholder for the unreachable out-of-range list accesses. -/
def dummySubTask : SubTask := ⟨0, [], [], [], []⟩

/-- The best-pair search of `_aggressive_constraint_aware_merge`: among
compatible pairs, the first pair (scan order `i` ascending, then `j`) of
strictly maximal score; `none` when no pair is compatible
(`best_score = -inf`). -/
def bestPairStep (task : PlanningTask) (maxg : ℕ) (cc : ConstraintConfig)
    (l : List SubTask) (best : Option (ℕ × ℕ × ℤ)) (ij : ℕ × ℕ) :
    Option (ℕ × ℕ × ℤ) :=
  let s1 := (l.get? ij.1).getD dummySubTask
  let s2 := (l.get? ij.2).getD dummySubTask
  if is_compatible_for_merging s1 s2 task maxg cc then
    let sc := compatibilityScoreCA s1 s2 task cc
    match best with
    | none => some (ij.1, ij.2, sc)
    | some b => if b.2.2 < sc then some (ij.1, ij.2, sc) else best
  else best

def findBestPair (task : PlanningTask) (maxg : ℕ) (cc : ConstraintConfig)
    (l : List SubTask) : Option (ℕ × ℕ) :=
  ((pairIndices l.length).foldl (bestPairStep task maxg cc l) none).map
    (fun b => (b.1, b.2.1))

/-- The `while len(merged) > target_count` loop of
`_aggressive_constraint_aware_merge`: merge the best-scoring compatible
pair (removing both, appending the merge) until the target is reached or
no compatible pair remains.  Each merge shrinks the list, so a budget of
the initial length never runs out. -/
def aggressiveMergeGo (task : PlanningTask) (maxg : ℕ) (cc : ConstraintConfig)
    (target : ℕ) : ℕ → List SubTask → ℕ → List SubTask
  | 0, l, _ => l
  | fuel + 1, l, nid =>
    if l.length ≤ target then l
    else
      match findBestPair task maxg cc l with
      | none => l
      | some (i, j) =>
        let s1 := (l.get? i).getD dummySubTask
        let s2 := (l.get? j).getD dummySubTask
        let merged := mergeTwoCA s1 s2 task nid cc
        aggressiveMergeGo task maxg cc target fuel
          ((l.eraseIdx j).eraseIdx i ++ [merged]) (nid + 1)

/-- `_aggressive_constraint_aware_merge(subtasks, task,
max_goals_per_subtask, target_count, constraint_config)`. -/
def aggressive_constraint_aware_merge (subtasks : List SubTask)
    (task : PlanningTask) (maxg : ℕ) (cc : ConstraintConfig) (target : ℕ) :
    List SubTask :=
  aggressiveMergeGo task maxg cc target subtasks.length subtasks
    (maxId subtasks + 1)

/-- `constraint_aware_merge_subtasks(subtasks, task, max_goals_per_subtask,
target_subtask_count, constraint_config)`: the three phases — same-signature
merge, across-signature greedy fixpoint, then (when a non-zero target is
given and still exceeded; Python treats `0` and `None` alike as falsy) the
aggressive best-pair reduction. -/
def constraint_aware_merge_subtasks (subtasks : List SubTask)
    (task : PlanningTask) (max_goals_per_subtask : ℕ)
    (target_subtask_count : Option ℕ) (cc : ConstraintConfig) : List SubTask :=
  if subtasks.isEmpty then subtasks
  else
    let merged1 := merge_within_same_role_signature subtasks task
      max_goals_per_subtask cc
    let merged2 := merge_compatible_across_roles merged1 task
      max_goals_per_subtask cc
    match target_subtask_count with
    | none => merged2
    | some t =>
      if t ≠ 0 ∧ t < merged2.length then
        aggressive_constraint_aware_merge merged2 task max_goals_per_subtask cc t
      else merged2

/-! ## C5: id collisions in `_merge_within_same_role_signature` -/

/-- A subtask with one goal and a single-key signature. -/
def mkSt (i : ℕ) (obj v : String) : SubTask :=
  ⟨i, [⟨"p", [obj]⟩], [], [("r", some v)], []⟩

/-- An empty constraint configuration: only the goal-count cap applies. -/
def ccEmpty : ConstraintConfig := ⟨[], [], 0⟩

/-- An empty planning task (the merge functions only consult `init` when
constraint predicates are configured). -/
def taskEmpty : PlanningTask := ⟨[], []⟩

/-- C5 (code-bug evidence): five subtasks with ids 0–4 in two signature
groups (three with `r=a`, two with `r=b`).  Group one consumes ids 5 and 6
(two merges) but advances the running id only by its single output, so
group two's merge is also given id 6: the pass returns two live subtasks
that share id 6, violating the unique-id invariant (and collapsing the
id-keyed assignment map downstream). -/
theorem merge_within_same_role_signature_duplicates_ids :
    ((merge_within_same_role_signature
        [mkSt 0 "a0" "a", mkSt 1 "a1" "a", mkSt 2 "a2" "a",
         mkSt 3 "b0" "b", mkSt 4 "b1" "b"] taskEmpty 10 ccEmpty).map
      (fun s => s.id)) = [6, 6] ∧
    ¬ ((merge_within_same_role_signature
        [mkSt 0 "a0" "a", mkSt 1 "a1" "a", mkSt 2 "a2" "a",
         mkSt 3 "b0" "b", mkSt 4 "b1" "b"] taskEmpty 10 ccEmpty).map
      (fun s => s.id)).Nodup := by
  refine ⟨by decide, by decide⟩

/-! ## C6: merging two subtasks -/

/-- C6 (counterexample to the claim as stated): `_merge_two_subtasks`
joins differing signature values in input order without sorting or
deduplication — merging `{loc: "y"}` with `{loc: "x"}` yields `"y|x"`,
not the sorted `"x|y"`; the sorted deduplicated join is produced only by
the constraint-aware variant. -/
theorem merge_two_subtasks_signature_not_sorted :
    (mergeTwoSubtasks ⟨0, [gAtom1], [], [("loc", some "y")], []⟩
      ⟨1, [gAtom2], [], [("loc", some "x")], []⟩ 2).role_signature =
      [("loc", some "y|x")] ∧
    ("y|x" : String) ≠ "x|y" ∧
    joinBarSorted "y" "x" = "x|y" := by
  refine ⟨by decide, by decide, by decide⟩

/-! ## C9: necessity of the compatibility conditions -/

/-- A binary-constraint fact `(p x t)` among the init atoms: `t` is
accessible (reachable) from `x`, in the argument convention of
`extract_binary_constraints` (`from_obj = args[0]`, `to_obj = args[1]`). -/
def AccessFact (task : PlanningTask) (p x t : String) : Prop :=
  ∃ atom ∈ task.init, atom.predicate = p ∧ atom.args.get? 0 = some x ∧
    atom.args.get? 1 = some t

/-- What `is_compatible_for_merging` requires of a binary constraint: some
object from which every target is reachable (a common source). -/
def ExistsCommonSource (task : PlanningTask) (p : String)
    (targets : List String) : Prop :=
  ∃ x, ∀ t ∈ targets, AccessFact task p x t

/-- The claim's wording of condition (b), stated for comparison with the
code: "there exists at least one object simultaneously reachable from
every target object" — a common destination. -/
def ExistsCommonDestination (task : PlanningTask) (p : String)
    (targets : List String) : Prop :=
  ∃ x, ∀ t ∈ targets, AccessFact task p t x

theorem mem_accessibleTos (task : PlanningTask) (p x t : String) :
    t ∈ accessibleTos task p x ↔ AccessFact task p x t := by
  constructor
  · intro hm
    obtain ⟨atom, hmem, hget⟩ := List.mem_filterMap.mp hm
    obtain ⟨hmem2, hcond⟩ := List.mem_filter.mp hmem
    simp only [Bool.and_eq_true, beq_iff_eq, decide_eq_true_eq] at hcond
    exact ⟨atom, hmem2, hcond.1.1, hcond.2, hget⟩
  · rintro ⟨atom, hmem, hpred, h0, h1⟩
    refine List.mem_filterMap.mpr ⟨atom, List.mem_filter.mpr ⟨hmem, ?_⟩, h1⟩
    have hlen : 2 ≤ atom.args.length := by
      by_contra hlt
      rw [List.get?_eq_none.mpr (by omega)] at h1
      cases h1
    simp only [Bool.and_eq_true, beq_iff_eq, decide_eq_true_eq]
    exact ⟨⟨hpred, hlen⟩, h0⟩

theorem find_common_accessible_sound (task : PlanningTask) (p : String)
    (targets : List String) (x : String)
    (hx : x ∈ find_common_accessible_objects task p targets) :
    ∀ t ∈ targets, AccessFact task p x t := by
  intro t ht
  rw [find_common_accessible_objects] at hx
  by_cases hemp : targets.isEmpty
  · rw [if_pos hemp] at hx
    cases hx
  · rw [if_neg hemp] at hx
    obtain ⟨_, hall⟩ := List.mem_filter.mp hx
    have := List.all_eq_true.mp hall t ht
    exact (mem_accessibleTos task p x t).mp (by simpa using this)

theorem length_le_one_mem_eq {α : Type} {l : List α} (h : l.length ≤ 1)
    {a b : α} (ha : a ∈ l) (hb : b ∈ l) : a = b := by
  cases l with
  | nil => cases ha
  | cons x rest =>
    cases rest with
    | nil =>
      simp only [List.mem_cons, List.not_mem_nil, or_false] at ha hb
      rw [ha, hb]
    | cons y rest2 => simp at h

/-- C9 (amended): the conditions `is_compatible_for_merging` necessarily
imposes.  A compatible pair satisfies (a) the combined goal count is at
most `max_goals_per_subtask`; (b) for every configured binary constraint
predicate there is at least one object FROM WHICH every target object of
both subtasks' goals is reachable (the claim's original wording had the
direction of reachability reversed); (c) for every configured unary type
predicate the targets carry at most one distinct type value.  With no
constraint predicates configured, compatibility is exactly condition (a). -/
theorem is_compatible_for_merging_necessary (s1 s2 : SubTask)
    (task : PlanningTask) (maxg : ℕ) (cc : ConstraintConfig)
    (hc : is_compatible_for_merging s1 s2 task maxg cc = true) :
    s1.goals.length + s2.goals.length ≤ maxg ∧
    (∀ p ∈ cc.binary_constraints, ExistsCommonSource task p
      (extractTargetObjects cc.goal_object_index s1.goals ++
        extractTargetObjects cc.goal_object_index s2.goals)) ∧
    (∀ p ∈ cc.type_constraints,
      ∀ t1 ∈ extractTargetObjects cc.goal_object_index s1.goals ++
        extractTargetObjects cc.goal_object_index s2.goals,
      ∀ t2 ∈ extractTargetObjects cc.goal_object_index s1.goals ++
        extractTargetObjects cc.goal_object_index s2.goals,
      ∀ v1 v2, typeValueOf task p t1 = some v1 →
        typeValueOf task p t2 = some v2 → v1 = v2) ∧
    (cc.binary_constraints = [] → cc.type_constraints = [] →
      ∀ s1' s2' : SubTask,
        (is_compatible_for_merging s1' s2' task maxg cc = true ↔
          s1'.goals.length + s2'.goals.length ≤ maxg)) := by
  rw [is_compatible_for_merging] at hc
  by_cases h0 : maxg < s1.goals.length + s2.goals.length
  · rw [if_pos h0] at hc
    cases hc
  · rw [if_neg h0] at hc
    have hlen : s1.goals.length + s2.goals.length ≤ maxg := by omega
    have hiff : cc.binary_constraints = [] → cc.type_constraints = [] →
        ∀ s1' s2' : SubTask,
          (is_compatible_for_merging s1' s2' task maxg cc = true ↔
            s1'.goals.length + s2'.goals.length ≤ maxg) := by
      intro hb ht s1' s2'
      rw [is_compatible_for_merging, hb, ht]
      by_cases h0' : maxg < s1'.goals.length + s2'.goals.length
      · rw [if_pos h0']
        constructor
        · intro hfalse
          cases hfalse
        · intro hle
          omega
      · rw [if_neg h0', if_pos (show (([] : List String).isEmpty &&
          ([] : List String).isEmpty) = true from rfl)]
        exact ⟨fun _ => by omega, fun _ => rfl⟩
    by_cases hempty : (cc.binary_constraints.isEmpty && cc.type_constraints.isEmpty) = true
    · simp only [Bool.and_eq_true, List.isEmpty_iff] at hempty
      refine ⟨hlen, ?_, ?_, hiff⟩
      · rw [hempty.1]
        intro p hp
        cases hp
      · rw [hempty.2]
        intro p hp
        cases hp
    · rw [if_neg hempty] at hc
      simp only [Bool.and_eq_true, List.all_eq_true] at hc
      refine ⟨hlen, ?_, ?_, hiff⟩
      · intro p hp
        have hne := hc.1 p hp
        rcases hh : find_common_accessible_objects task p
            (extractTargetObjects cc.goal_object_index s1.goals ++
              extractTargetObjects cc.goal_object_index s2.goals) with _ | ⟨x, rest⟩
        · rw [hh] at hne
          simp at hne
        · exact ⟨x, find_common_accessible_sound task p _ x
            (by rw [hh]; exact List.mem_cons_self x rest)⟩
      · intro p hp t1 ht1 t2 ht2 v1 v2 hv1 hv2
        have hle1 := hc.2 p hp
        simp only [decide_eq_true_eq] at hle1
        have hm1 : v1 ∈ requiredTypes task p
            (extractTargetObjects cc.goal_object_index s1.goals ++
              extractTargetObjects cc.goal_object_index s2.goals) := by
          rw [requiredTypes, mem_ldedup]
          exact List.mem_filterMap.mpr ⟨t1, ht1, hv1⟩
        have hm2 : v2 ∈ requiredTypes task p
            (extractTargetObjects cc.goal_object_index s1.goals ++
              extractTargetObjects cc.goal_object_index s2.goals) := by
          rw [requiredTypes, mem_ldedup]
          exact List.mem_filterMap.mpr ⟨t2, ht2, hv2⟩
        exact length_le_one_mem_eq hle1 hm1 hm2

/-- Witness for C9 at a concrete compatible input (no constraint
predicates configured). -/
theorem is_compatible_for_merging_necessary_witness :
    (mkSt 0 "a0" "a").goals.length + (mkSt 1 "a1" "a").goals.length ≤ 10 ∧
    (∀ p ∈ ccEmpty.binary_constraints, ExistsCommonSource taskEmpty p
      (extractTargetObjects ccEmpty.goal_object_index (mkSt 0 "a0" "a").goals ++
        extractTargetObjects ccEmpty.goal_object_index (mkSt 1 "a1" "a").goals)) ∧
    (∀ p ∈ ccEmpty.type_constraints,
      ∀ t1 ∈ extractTargetObjects ccEmpty.goal_object_index (mkSt 0 "a0" "a").goals ++
        extractTargetObjects ccEmpty.goal_object_index (mkSt 1 "a1" "a").goals,
      ∀ t2 ∈ extractTargetObjects ccEmpty.goal_object_index (mkSt 0 "a0" "a").goals ++
        extractTargetObjects ccEmpty.goal_object_index (mkSt 1 "a1" "a").goals,
      ∀ v1 v2, typeValueOf taskEmpty p t1 = some v1 →
        typeValueOf taskEmpty p t2 = some v2 → v1 = v2) ∧
    (ccEmpty.binary_constraints = [] → ccEmpty.type_constraints = [] →
      ∀ s1' s2' : SubTask,
        (is_compatible_for_merging s1' s2' taskEmpty 10 ccEmpty = true ↔
          s1'.goals.length + s2'.goals.length ≤ 10)) :=
  is_compatible_for_merging_necessary (mkSt 0 "a0" "a") (mkSt 1 "a1" "a")
    taskEmpty 10 ccEmpty (by decide)

/-- Two one-goal subtasks over targets `t1`, `t2`. -/
def stT1 : SubTask := ⟨0, [⟨"g", ["t1"]⟩], [], [], []⟩

def stT2 : SubTask := ⟨1, [⟨"g", ["t2"]⟩], [], [], []⟩

/-- A task where `x` reaches both targets but nothing is reachable from
the targets themselves. -/
def taskC9 : PlanningTask :=
  ⟨[⟨"reach", ["x", "t1"]⟩, ⟨"reach", ["x", "t2"]⟩], []⟩

/-- The binary-only constraint configuration of the C9 counterexample. -/
def ccC9 : ConstraintConfig := ⟨["reach"], [], 0⟩

/-- C9 (counterexample to the claim as stated): the pair is judged
compatible because the single object `x` reaches both targets
(`(reach x t1)`, `(reach x t2)`), yet no object is reachable FROM every
target — the claim's direction of condition (b) fails on this input. -/
theorem is_compatible_but_no_common_destination :
    is_compatible_for_merging stT1 stT2 taskC9 10 ccC9 = true ∧
    ¬ ExistsCommonDestination taskC9 "reach"
      (extractTargetObjects 0 stT1.goals ++ extractTargetObjects 0 stT2.goals) := by
  constructor
  · decide
  · rintro ⟨x, hx⟩
    have h1 := hx "t1" (by decide)
    obtain ⟨atom, hmem, hpred, h0, hget⟩ := h1
    have : atom = ⟨"reach", ["x", "t1"]⟩ ∨ atom = ⟨"reach", ["x", "t2"]⟩ := by
      simpa [taskC9] using hmem
    rcases this with rfl | rfl <;> simp at h0

/-! ## C6: semantics of the two subtask-merge routines -/

theorem alookup_append {κ β : Type} [DecidableEq κ] (k : κ)
    (l1 l2 : List (κ × β)) :
    alookup k (l1 ++ l2) =
      match alookup k l1 with
      | some v => some v
      | none => alookup k l2 := by
  induction l1 with
  | nil => rfl
  | cons kv rest ih =>
    obtain ⟨k', v⟩ := kv
    by_cases h : k' = k
    · simp [List.cons_append, alookup, h]
    · simp only [List.cons_append, alookup, if_neg h]
      exact ih

theorem alookup_eq_none_of_not_mem {κ β : Type} [DecidableEq κ] (k : κ)
    (l : List (κ × β)) (h : k ∉ l.map Prod.fst) : alookup k l = none := by
  induction l with
  | nil => rfl
  | cons kv rest ih =>
    obtain ⟨k', v⟩ := kv
    simp only [List.map_cons, List.mem_cons] at h
    push_neg at h
    show (if k' = k then some v else alookup k rest) = none
    rw [if_neg (fun hh => h.1 hh.symm)]
    exact ih h.2

theorem alookup_reverse_of_nodup {κ β : Type} [DecidableEq κ] (k : κ)
    (l : List (κ × β)) (h : (l.map Prod.fst).Nodup) :
    alookup k l.reverse = alookup k l := by
  induction l with
  | nil => rfl
  | cons kv rest ih =>
    obtain ⟨k', v⟩ := kv
    simp only [List.map_cons, List.nodup_cons] at h
    rw [List.reverse_cons, alookup_append k]
    by_cases hk : k' = k
    · have h1 : alookup k rest.reverse = none :=
        alookup_eq_none_of_not_mem k rest.reverse
          (by rw [List.map_reverse]
              exact fun hm => (hk ▸ h.1) (List.mem_reverse.mp hm))
      rw [h1]
      show alookup k [(k', v)] = alookup k ((k', v) :: rest)
      simp [alookup, hk]
    · rw [ih h.2]
      cases hr : alookup k rest with
      | some w =>
        show some w = alookup k ((k', v) :: rest)
        simp [alookup, hk, hr]
      | none =>
        show alookup k [(k', v)] = alookup k ((k', v) :: rest)
        simp [alookup, hk, hr]

theorem alookup_aupdate {κ β : Type} [DecidableEq κ] (k : κ)
    (d1 d2 : List (κ × β)) :
    alookup k (aupdate d1 d2) =
      match alookup k d2.reverse with
      | some v => some v
      | none => alookup k d1 := by
  induction d2 generalizing d1 with
  | nil => rfl
  | cons kv rest ih =>
    obtain ⟨k', v⟩ := kv
    show alookup k (aupdate (aset k' v d1) rest) = _
    rw [ih, List.reverse_cons, alookup_append k]
    cases hr : alookup k rest.reverse with
    | some w => rfl
    | none =>
      by_cases hk : k' = k
      · rw [hk, alookup_aset_self]
        have h2 : alookup k [(k, v)] = some v := by simp [alookup]
        rw [h2]
      · rw [alookup_aset_ne k k' v d1 hk]
        have h2 : alookup k [(k', v)] = none := by simp [alookup, hk]
        rw [h2]

theorem alookup_aupdate_of_nodup {κ β : Type} [DecidableEq κ] (k : κ)
    (d1 d2 : List (κ × β)) (h : (d2.map Prod.fst).Nodup) :
    alookup k (aupdate d1 d2) =
      match alookup k d2 with
      | some v => some v
      | none => alookup k d1 := by
  rw [alookup_aupdate, alookup_reverse_of_nodup k d2 h]

theorem alookup_mergeSigStep_ne (merged : List (String × Option String))
    (k2 : String) (v2 : Option String) (k : String) (h : k2 ≠ k) :
    alookup k (mergeSigStep merged k2 v2) = alookup k merged := by
  unfold mergeSigStep
  split
  · split
    · rfl
    · split
      · exact alookup_aset_ne k k2 _ merged h
      · exact alookup_aset_ne k k2 _ merged h
  · exact alookup_aset_ne k k2 _ merged h

theorem alookup_mergeSigStep_absent (merged : List (String × Option String))
    (k2 : String) (v2 : Option String) (h : alookup k2 merged = none) :
    alookup k2 (mergeSigStep merged k2 v2) = some v2 := by
  unfold mergeSigStep
  rw [h]
  exact alookup_aset_self k2 v2 merged

theorem alookup_mergeSigStep_same (merged : List (String × Option String))
    (k2 : String) (v2 : Option String) (h : alookup k2 merged = some v2) :
    alookup k2 (mergeSigStep merged k2 v2) = some v2 := by
  have e : mergeSigStep merged k2 v2 = merged := by
    simp only [mergeSigStep, h, eq_self_iff_true, if_true]
  rw [e]
  exact h

theorem alookup_mergeSigStep_diff (merged : List (String × Option String))
    (k2 : String) (s1 s2 : String) (h : alookup k2 merged = some (some s1))
    (hne : s1 ≠ s2) :
    alookup k2 (mergeSigStep merged k2 (some s2)) =
      some (some (joinBarSorted s1 s2)) := by
  have e : mergeSigStep merged k2 (some s2) =
      aset k2 (some (joinBarSorted s1 s2)) merged := by
    simp only [mergeSigStep, h, Option.some.injEq, hne, if_false]
  rw [e]
  exact alookup_aset_self k2 _ merged

theorem mergeSigsCA_absent_right :
    ∀ (sig2 sig1 : List (String × Option String)) (k : String),
    alookup k sig2 = none →
    alookup k (mergeRoleSignaturesCA sig1 sig2) = alookup k sig1 := by
  intro sig2
  induction sig2 with
  | nil => intro sig1 k _; rfl
  | cons kv rest ih =>
    intro sig1 k h
    obtain ⟨k2, v2⟩ := kv
    have hu : alookup k ((k2, v2) :: rest) =
        if k2 = k then some v2 else alookup k rest := rfl
    have hk : ¬ k2 = k := by
      intro he
      rw [hu, if_pos he] at h
      cases h
    have ht : alookup k rest = none := by
      rw [hu, if_neg hk] at h
      exact h
    show alookup k (mergeRoleSignaturesCA (mergeSigStep sig1 k2 v2) rest) = _
    rw [ih (mergeSigStep sig1 k2 v2) k ht,
      alookup_mergeSigStep_ne sig1 k2 v2 k hk]

theorem mergeSigsCA_absent_left :
    ∀ (sig2 sig1 : List (String × Option String)) (k : String),
    (sig2.map Prod.fst).Nodup → alookup k sig1 = none →
    alookup k (mergeRoleSignaturesCA sig1 sig2) = alookup k sig2 := by
  intro sig2
  induction sig2 with
  | nil => intro sig1 k _ h1; exact h1
  | cons kv rest ih =>
    intro sig1 k h2 h1
    obtain ⟨k2, v2⟩ := kv
    simp only [List.map_cons, List.nodup_cons] at h2
    show alookup k (mergeRoleSignaturesCA (mergeSigStep sig1 k2 v2) rest) =
      alookup k ((k2, v2) :: rest)
    by_cases hk : k2 = k
    · subst hk
      have ht : alookup k2 rest = none :=
        alookup_eq_none_of_not_mem k2 rest h2.1
      rw [mergeSigsCA_absent_right rest (mergeSigStep sig1 k2 v2) k2 ht,
        alookup_mergeSigStep_absent sig1 k2 v2 h1]
      show some v2 = if k2 = k2 then some v2 else alookup k2 rest
      rw [if_pos rfl]
    · have h1' : alookup k (mergeSigStep sig1 k2 v2) = none := by
        rw [alookup_mergeSigStep_ne sig1 k2 v2 k hk]
        exact h1
      rw [ih (mergeSigStep sig1 k2 v2) k h2.2 h1']
      show alookup k rest = if k2 = k then some v2 else alookup k rest
      rw [if_neg hk]

theorem mergeSigsCA_same :
    ∀ (sig2 sig1 : List (String × Option String)) (k : String)
      (v : Option String),
    (sig2.map Prod.fst).Nodup → alookup k sig1 = some v →
    alookup k sig2 = some v →
    alookup k (mergeRoleSignaturesCA sig1 sig2) = some v := by
  intro sig2
  induction sig2 with
  | nil => intro sig1 k v _ _ h2; cases h2
  | cons kv rest ih =>
    intro sig1 k v hnd h1 h2
    obtain ⟨k2, v2⟩ := kv
    simp only [List.map_cons, List.nodup_cons] at hnd
    show alookup k (mergeRoleSignaturesCA (mergeSigStep sig1 k2 v2) rest) = some v
    by_cases hk : k2 = k
    · subst hk
      have hv : v2 = v := by
        have hq : (if k2 = k2 then some v2 else alookup k2 rest) = some v := h2
        rw [if_pos rfl] at hq
        exact Option.some.inj hq
      subst hv
      have ht : alookup k2 rest = none :=
        alookup_eq_none_of_not_mem k2 rest hnd.1
      rw [mergeSigsCA_absent_right rest _ k2 ht]
      exact alookup_mergeSigStep_same sig1 k2 v2 h1
    · have h2' : alookup k rest = some v := by
        have hq : (if k2 = k then some v2 else alookup k rest) = some v := h2
        rwa [if_neg hk] at hq
      have h1' : alookup k (mergeSigStep sig1 k2 v2) = some v := by
        rw [alookup_mergeSigStep_ne sig1 k2 v2 k hk]
        exact h1
      exact ih (mergeSigStep sig1 k2 v2) k v hnd.2 h1' h2'

theorem mergeSigsCA_diff :
    ∀ (sig2 sig1 : List (String × Option String)) (k a b : String),
    (sig2.map Prod.fst).Nodup → a ≠ b →
    alookup k sig1 = some (some a) → alookup k sig2 = some (some b) →
    alookup k (mergeRoleSignaturesCA sig1 sig2) =
      some (some (joinBarSorted a b)) := by
  intro sig2
  induction sig2 with
  | nil => intro sig1 k a b _ _ _ h2; cases h2
  | cons kv rest ih =>
    intro sig1 k a b hnd hab h1 h2
    obtain ⟨k2, v2⟩ := kv
    simp only [List.map_cons, List.nodup_cons] at hnd
    show alookup k (mergeRoleSignaturesCA (mergeSigStep sig1 k2 v2) rest) =
      some (some (joinBarSorted a b))
    by_cases hk : k2 = k
    · subst hk
      have hv : v2 = some b := by
        have hq : (if k2 = k2 then some v2 else alookup k2 rest) = some (some b) := h2
        rw [if_pos rfl] at hq
        exact Option.some.inj hq
      subst hv
      have ht : alookup k2 rest = none :=
        alookup_eq_none_of_not_mem k2 rest hnd.1
      rw [mergeSigsCA_absent_right rest _ k2 ht]
      exact alookup_mergeSigStep_diff sig1 k2 a b h1 hab
    · have h2' : alookup k rest = some (some b) := by
        have hq : (if k2 = k then some v2 else alookup k rest) = some (some b) := h2
        rwa [if_neg hk] at hq
      have h1' : alookup k (mergeSigStep sig1 k2 v2) = some (some a) := by
        rw [alookup_mergeSigStep_ne sig1 k2 v2 k hk]
        exact h1
      exact ih (mergeSigStep sig1 k2 v2) k a b hnd.2 hab h1' h2'

theorem charListLe_trans : ∀ (a b c : List Char), charListLe a b = true →
    charListLe b c = true → charListLe a c = true := by
  intro a
  induction a with
  | nil =>
    intro b c _ _
    rfl
  | cons x as ih =>
    intro b c hab hbc
    cases b with
    | nil => simp [charListLe] at hab
    | cons y bs =>
      cases c with
      | nil => simp [charListLe] at hbc
      | cons z cs =>
        simp only [charListLe] at hab hbc ⊢
        split at hab
        · rename_i h1
          split at hbc
          · rename_i h2
            rw [if_pos (by omega : x.val.toNat < z.val.toNat)]
          · split at hbc
            · rename_i h2 h3
              rw [if_pos (by omega : x.val.toNat < z.val.toNat)]
            · cases hbc
        · split at hab
          · rename_i h1 h2
            split at hbc
            · rename_i h3
              rw [if_pos (by omega : x.val.toNat < z.val.toNat)]
            · split at hbc
              · rename_i h3 h4
                rw [if_neg (by omega : ¬ x.val.toNat < z.val.toNat),
                  if_pos (by omega : x.val.toNat = z.val.toNat)]
                exact ih bs cs hab hbc
              · cases hbc
          · cases hab

theorem charListLe_total : ∀ (a b : List Char),
    charListLe a b = true ∨ charListLe b a = true := by
  intro a
  induction a with
  | nil =>
    intro b
    exact Or.inl rfl
  | cons x as ih =>
    intro b
    cases b with
    | nil => exact Or.inr rfl
    | cons y bs =>
      simp only [charListLe]
      by_cases h1 : x.val.toNat < y.val.toNat
      · exact Or.inl (by rw [if_pos h1])
      · by_cases h2 : x.val.toNat = y.val.toNat
        · rcases ih bs with h | h
          · exact Or.inl (by rw [if_neg h1, if_pos h2, h])
          · exact Or.inr (by
              rw [if_neg (by omega : ¬ y.val.toNat < x.val.toNat),
                if_pos h2.symm, h])
        · exact Or.inr (by
            rw [if_pos (by omega : y.val.toNat < x.val.toNat)])

instance : IsTotal String (fun a b => strLeB a b = true) :=
  ⟨fun a b => charListLe_total a.data b.data⟩

instance : IsTrans String (fun a b => strLeB a b = true) :=
  ⟨fun a b c => charListLe_trans a.data b.data c.data⟩

theorem splitBarChars_ne_nil : ∀ (cs : List Char), splitBarChars cs ≠ [] := by
  intro cs
  induction cs with
  | nil => simp [splitBarChars]
  | cons c rest ih =>
    simp only [splitBarChars]
    split
    · simp
    · split
      · simp
      · simp

theorem splitBarChars_no_bar : ∀ (cs : List Char), ∀ g ∈ splitBarChars cs,
    '|' ∉ g := by
  intro cs
  induction cs with
  | nil =>
    intro g hg
    simp only [splitBarChars, List.mem_singleton] at hg
    subst hg
    simp
  | cons c rest ih =>
    intro g hg
    simp only [splitBarChars] at hg
    by_cases hc : c = '|'
    · rw [if_pos hc] at hg
      rcases List.mem_cons.mp hg with rfl | hg2
      · simp
      · exact ih g hg2
    · rw [if_neg hc] at hg
      cases hsp : splitBarChars rest with
      | nil =>
        rw [hsp] at hg
        simp only [List.mem_singleton] at hg
        subst hg
        intro hm
        rcases List.mem_singleton.mp hm with h
        exact hc h.symm
      | cons g0 gs =>
        rw [hsp] at hg
        rcases List.mem_cons.mp hg with rfl | hg2
        · intro hmem
          rcases List.mem_cons.mp hmem with h | h
          · exact hc h.symm
          · exact ih g0 (by rw [hsp]; exact List.mem_cons_self g0 gs) h
        · exact ih g (by rw [hsp]; exact List.mem_cons_of_mem g0 hg2)

theorem splitBarChars_barfree (g : List Char) (h : '|' ∉ g) :
    splitBarChars g = [g] := by
  induction g with
  | nil => rfl
  | cons c rest ih =>
    simp only [List.mem_cons] at h
    push_neg at h
    simp only [splitBarChars]
    rw [if_neg (fun hc => h.1 hc.symm), ih h.2]

theorem splitBarChars_append_bar (g t : List Char) (h : '|' ∉ g) :
    splitBarChars (g ++ '|' :: t) = g :: splitBarChars t := by
  induction g with
  | nil => simp [splitBarChars]
  | cons c rest ih =>
    simp only [List.mem_cons] at h
    push_neg at h
    simp only [List.cons_append, splitBarChars, List.append_eq]
    rw [if_neg (fun hc => h.1 hc.symm), ih h.2]

theorem splitBarChars_join : ∀ (gs : List (List Char)) (g : List Char),
    '|' ∉ g → (∀ x ∈ gs, '|' ∉ x) →
    splitBarChars (g ++ gs.flatMap (fun q => '|' :: q)) = g :: gs := by
  intro gs
  induction gs with
  | nil =>
    intro g hbf _
    simp only [List.flatMap_nil, List.append_nil]
    exact splitBarChars_barfree g hbf
  | cons q rest ih =>
    intro g hbf hbfs
    simp only [List.flatMap_cons, List.cons_append]
    rw [splitBarChars_append_bar g _ hbf,
      ih q (hbfs q (List.mem_cons_self q rest))
        (fun x hx => hbfs x (List.mem_cons_of_mem q hx))]

theorem joinBar_data (p : String) (rest : List String) :
    (joinBar (p :: rest)).data =
      p.data ++ rest.flatMap (fun q => '|' :: q.data) := by
  induction rest generalizing p with
  | nil => simp [joinBar]
  | cons q rest' ih =>
    have e : joinBar (p :: q :: rest') = joinBar ((p ++ "|" ++ q) :: rest') := rfl
    rw [e, ih]
    have hd : (p ++ "|" ++ q).data = p.data ++ '|' :: q.data := by
      rw [String.data_append, String.data_append,
        show ("|" : String).data = ['|'] by decide, List.append_assoc]
      rfl
    rw [hd, List.flatMap_cons, List.append_assoc]

theorem map_mk_data (l : List String) :
    (l.map String.data).map (fun cs => (⟨cs⟩ : String)) = l := by
  induction l with
  | nil => rfl
  | cons p rest ih =>
    simp only [List.map_cons, ih]

theorem splitBar_joinBar (parts : List String) (hne : parts ≠ [])
    (hbf : ∀ x ∈ parts, '|' ∉ x.data) :
    splitBar (joinBar parts) = parts := by
  cases parts with
  | nil => exact absurd rfl hne
  | cons p rest =>
    rw [splitBar, joinBar_data p rest]
    have hfm : rest.flatMap (fun q : String => '|' :: q.data) =
        (rest.map String.data).flatMap (fun q => '|' :: q) := by
      simp only [List.flatMap_map]
    rw [hfm, splitBarChars_join (rest.map String.data) p.data
      (hbf p (List.mem_cons_self p rest))
      (fun x hx => by
        obtain ⟨y, hy, rfl⟩ := List.mem_map.mp hx
        exact hbf y (List.mem_cons_of_mem p hy))]
    simp only [List.map_cons, map_mk_data]

theorem splitBar_mem_barfree (s : String) : ∀ x ∈ splitBar s, '|' ∉ x.data := by
  intro x hx
  rw [splitBar] at hx
  obtain ⟨cs, hcs, rfl⟩ := List.mem_map.mp hx
  exact splitBarChars_no_bar s.data cs hcs

theorem splitBar_ne_nil (s : String) : splitBar s ≠ [] := by
  rw [splitBar]
  intro h
  exact splitBarChars_ne_nil s.data (List.map_eq_nil_iff.mp h)

theorem splitBar_joinBarSorted (a b : String) :
    splitBar (joinBarSorted a b) =
      List.insertionSort (fun x y => strLeB x y = true)
        (ldedup (splitBar a ++ splitBar b)) := by
  rw [joinBarSorted]
  apply splitBar_joinBar
  · intro h
    have hperm := List.perm_insertionSort (fun x y => strLeB x y = true)
      (ldedup (splitBar a ++ splitBar b))
    rw [h] at hperm
    have h2 : ldedup (splitBar a ++ splitBar b) = [] :=
      List.Perm.eq_nil hperm.symm
    have h3 : splitBar a ++ splitBar b = [] := (ldedup_eq_nil_iff _).mp h2
    exact splitBar_ne_nil a (List.append_eq_nil.mp h3).1
  · intro x hx
    have hm : x ∈ ldedup (splitBar a ++ splitBar b) :=
      (List.perm_insertionSort _ _).mem_iff.mp hx
    rw [mem_ldedup, List.mem_append] at hm
    rcases hm with h | h
    · exact splitBar_mem_barfree a x h
    · exact splitBar_mem_barfree b x h

theorem joinBarSorted_mem (a b p : String) :
    p ∈ splitBar (joinBarSorted a b) ↔ p ∈ splitBar a ∨ p ∈ splitBar b := by
  rw [splitBar_joinBarSorted, (List.perm_insertionSort _ _).mem_iff,
    mem_ldedup, List.mem_append]

theorem joinBarSorted_nodup (a b : String) :
    (splitBar (joinBarSorted a b)).Nodup := by
  rw [splitBar_joinBarSorted]
  exact (List.perm_insertionSort _ _).nodup_iff.mpr (ldedup_nodup _)

theorem joinBarSorted_sorted (a b : String) :
    (splitBar (joinBarSorted a b)).Pairwise (fun x y => strLeB x y = true) := by
  rw [splitBar_joinBarSorted]
  exact List.sorted_insertionSort _ _

/-- C6 (amended): the CONSTRAINT-AWARE merge (`_merge_two_constraint_aware`
with `_merge_role_signatures_constraint_aware`) concatenates the two goal
lists in order, unions the landmark predicate sets (without duplicates),
unions the roles-per-goal mappings (second input winning on a shared key),
and merges role signatures key by key: a key of only one input keeps its
value, identical values pass through unchanged, and differing string
values become a `|`-joined disjunction whose parts are sorted, free of
duplicates, and exactly the union of the two inputs' parts.  (The plain
`_merge_two_subtasks` of `subtasks.py` does NOT behave this way: it joins
as `f"{v1}|{v2}"` unsorted and drops keys present only in the second
subtask — see the accompanying counterexample.) -/
theorem merge_two_constraint_aware_spec (s1 s2 : SubTask) (task : PlanningTask)
    (nid : ℕ) (cc : ConstraintConfig)
    (hsig2 : (s2.role_signature.map Prod.fst).Nodup)
    (hrpg1 : (s1.roles_per_goal.map Prod.fst).Nodup)
    (hrpg2 : (s2.roles_per_goal.map Prod.fst).Nodup) :
    (mergeTwoCA s1 s2 task nid cc).goals = s1.goals ++ s2.goals ∧
    (∀ p, p ∈ (mergeTwoCA s1 s2 task nid cc).landmark_predicates ↔
      p ∈ s1.landmark_predicates ∨ p ∈ s2.landmark_predicates) ∧
    (mergeTwoCA s1 s2 task nid cc).landmark_predicates.Nodup ∧
    (∀ g, alookup g (mergeTwoCA s1 s2 task nid cc).roles_per_goal =
      match alookup g s2.roles_per_goal with
      | some r => some r
      | none => alookup g s1.roles_per_goal) ∧
    (∀ k, alookup k s2.role_signature = none →
      alookup k (mergeTwoCA s1 s2 task nid cc).role_signature =
        alookup k s1.role_signature) ∧
    (∀ k, alookup k s1.role_signature = none →
      alookup k (mergeTwoCA s1 s2 task nid cc).role_signature =
        alookup k s2.role_signature) ∧
    (∀ k v, alookup k s1.role_signature = some v →
      alookup k s2.role_signature = some v →
      alookup k (mergeTwoCA s1 s2 task nid cc).role_signature = some v) ∧
    (∀ k a b, a ≠ b → alookup k s1.role_signature = some (some a) →
      alookup k s2.role_signature = some (some b) →
      alookup k (mergeTwoCA s1 s2 task nid cc).role_signature =
        some (some (joinBarSorted a b)) ∧
      (splitBar (joinBarSorted a b)).Pairwise (fun x y => strLeB x y = true) ∧
      (splitBar (joinBarSorted a b)).Nodup ∧
      (∀ p, p ∈ splitBar (joinBarSorted a b) ↔
        p ∈ splitBar a ∨ p ∈ splitBar b)) := by
  refine ⟨rfl, ?_, ldedup_nodup _, ?_, ?_, ?_, ?_, ?_⟩
  · intro p
    have e : (mergeTwoCA s1 s2 task nid cc).landmark_predicates =
        ldedup (s1.landmark_predicates ++ s2.landmark_predicates) := rfl
    rw [e, mem_ldedup, List.mem_append]
  · intro g
    have e : (mergeTwoCA s1 s2 task nid cc).roles_per_goal =
        aupdate (aupdate [] s1.roles_per_goal) s2.roles_per_goal := rfl
    rw [e, alookup_aupdate_of_nodup g _ s2.roles_per_goal hrpg2]
    cases h2 : alookup g s2.roles_per_goal with
    | some r => rfl
    | none =>
      rw [alookup_aupdate_of_nodup g [] s1.roles_per_goal hrpg1]
      cases h1 : alookup g s1.roles_per_goal with
      | some r => rfl
      | none => rfl
  · exact fun k h => mergeSigsCA_absent_right s2.role_signature
      s1.role_signature k h
  · exact fun k h => mergeSigsCA_absent_left s2.role_signature
      s1.role_signature k hsig2 h
  · exact fun k v h1 h2 => mergeSigsCA_same s2.role_signature
      s1.role_signature k v hsig2 h1 h2
  · exact fun k a b hne h1 h2 =>
      ⟨mergeSigsCA_diff s2.role_signature s1.role_signature k a b hsig2 hne h1 h2,
        joinBarSorted_sorted a b, joinBarSorted_nodup a b,
        fun p => joinBarSorted_mem a b p⟩

/-- The two subtasks of Scenario B: singleton goals with signatures
`{loc: "x"}` and `{loc: "y"}`. -/
def stSigX : SubTask := ⟨0, [gAtom1], [], [("loc", some "x")], [(gAtom1, [("loc", "x")])]⟩

def stSigY : SubTask := ⟨1, [gAtom2], [], [("loc", some "y")], [(gAtom2, [("loc", "y")])]⟩

/-- Witness for C6 at Scenario B's subtasks. -/
theorem merge_two_constraint_aware_spec_witness :
    (mergeTwoCA stSigX stSigY taskEmpty 2 ccEmpty).goals =
      stSigX.goals ++ stSigY.goals ∧
    (∀ p, p ∈ (mergeTwoCA stSigX stSigY taskEmpty 2 ccEmpty).landmark_predicates ↔
      p ∈ stSigX.landmark_predicates ∨ p ∈ stSigY.landmark_predicates) ∧
    (mergeTwoCA stSigX stSigY taskEmpty 2 ccEmpty).landmark_predicates.Nodup ∧
    (∀ g, alookup g (mergeTwoCA stSigX stSigY taskEmpty 2 ccEmpty).roles_per_goal =
      match alookup g stSigY.roles_per_goal with
      | some r => some r
      | none => alookup g stSigX.roles_per_goal) ∧
    (∀ k, alookup k stSigY.role_signature = none →
      alookup k (mergeTwoCA stSigX stSigY taskEmpty 2 ccEmpty).role_signature =
        alookup k stSigX.role_signature) ∧
    (∀ k, alookup k stSigX.role_signature = none →
      alookup k (mergeTwoCA stSigX stSigY taskEmpty 2 ccEmpty).role_signature =
        alookup k stSigY.role_signature) ∧
    (∀ k v, alookup k stSigX.role_signature = some v →
      alookup k stSigY.role_signature = some v →
      alookup k (mergeTwoCA stSigX stSigY taskEmpty 2 ccEmpty).role_signature =
        some v) ∧
    (∀ k a b, a ≠ b → alookup k stSigX.role_signature = some (some a) →
      alookup k stSigY.role_signature = some (some b) →
      alookup k (mergeTwoCA stSigX stSigY taskEmpty 2 ccEmpty).role_signature =
        some (some (joinBarSorted a b)) ∧
      (splitBar (joinBarSorted a b)).Pairwise (fun x y => strLeB x y = true) ∧
      (splitBar (joinBarSorted a b)).Nodup ∧
      (∀ p, p ∈ splitBar (joinBarSorted a b) ↔
        p ∈ splitBar a ∨ p ∈ splitBar b)) :=
  merge_two_constraint_aware_spec stSigX stSigY taskEmpty 2 ccEmpty
    (by decide) (by decide) (by decide)

/-! ## C3: the goal-count bound across the merge passes -/

theorem compat_sum_le (s1 s2 : SubTask) (task : PlanningTask) (maxg : ℕ)
    (cc : ConstraintConfig)
    (h : is_compatible_for_merging s1 s2 task maxg cc = true) :
    s1.goals.length + s2.goals.length ≤ maxg := by
  rw [is_compatible_for_merging] at h
  by_cases h0 : maxg < s1.goals.length + s2.goals.length
  · rw [if_pos h0] at h
    cases h
  · omega

theorem mergeTwoCA_goals_length (s1 s2 : SubTask) (task : PlanningTask)
    (nid : ℕ) (cc : ConstraintConfig) :
    (mergeTwoCA s1 s2 task nid cc).goals.length =
      s1.goals.length + s2.goals.length := by
  simp [mergeTwoCA]

theorem mem_of_eraseIdx {α : Type} : ∀ (l : List α) (i : ℕ) (x : α),
    x ∈ l.eraseIdx i → x ∈ l := by
  intro l
  induction l with
  | nil =>
    intro i x hx
    simp [List.eraseIdx] at hx
  | cons a rest ih =>
    intro i x hx
    cases i with
    | zero => exact List.mem_cons_of_mem a hx
    | succ i' =>
      rcases List.mem_cons.mp hx with rfl | h2
      · exact List.mem_cons_self x rest
      · exact List.mem_cons_of_mem a (ih i' x h2)

theorem absorbCompatible_bound (task : PlanningTask) (maxg : ℕ)
    (cc : ConstraintConfig) :
    ∀ (l : List SubTask) (cur : SubTask) (nid : ℕ),
    cur.goals.length ≤ maxg → (∀ s ∈ l, s.goals.length ≤ maxg) →
    (absorbCompatible task maxg cc cur nid l).1.goals.length ≤ maxg ∧
    ∀ s ∈ (absorbCompatible task maxg cc cur nid l).2.2,
      s.goals.length ≤ maxg := by
  intro l
  induction l with
  | nil =>
    intro cur nid hc _
    exact ⟨hc, fun s hs => absurd hs (List.not_mem_nil s)⟩
  | cons c rest ih =>
    intro cur nid hc hl
    by_cases hcompat : is_compatible_for_merging cur c task maxg cc = true
    · have e : absorbCompatible task maxg cc cur nid (c :: rest) =
          absorbCompatible task maxg cc (mergeTwoCA cur c task nid cc)
            (nid + 1) rest := by
        simp only [absorbCompatible, hcompat, if_true]
      rw [e]
      apply ih
      · have hsum := compat_sum_le cur c task maxg cc hcompat
        have elen := mergeTwoCA_goals_length cur c task nid cc
        omega
      · exact fun s hs => hl s (List.mem_cons_of_mem c hs)
    · have e : absorbCompatible task maxg cc cur nid (c :: rest) =
          ((absorbCompatible task maxg cc cur nid rest).1,
            (absorbCompatible task maxg cc cur nid rest).2.1,
            c :: (absorbCompatible task maxg cc cur nid rest).2.2) := by
        simp [absorbCompatible, hcompat]
      rw [e]
      obtain ⟨h1, h2⟩ := ih cur nid hc
        (fun s hs => hl s (List.mem_cons_of_mem c hs))
      refine ⟨h1, ?_⟩
      intro s hs
      rcases List.mem_cons.mp hs with rfl | hs2
      · exact hl s (List.mem_cons_self s rest)
      · exact h2 s hs2

theorem mergeGroupGo_bound (task : PlanningTask) (maxg : ℕ)
    (cc : ConstraintConfig) :
    ∀ (fuel : ℕ) (l : List SubTask) (nid : ℕ),
    (∀ s ∈ l, s.goals.length ≤ maxg) →
    ∀ s ∈ mergeGroupGo task maxg cc fuel l nid, s.goals.length ≤ maxg := by
  intro fuel
  induction fuel with
  | zero =>
    intro l nid _ s hs
    simp [mergeGroupGo] at hs
  | succ fuel ih =>
    intro l nid hl s hs
    cases l with
    | nil => simp [mergeGroupGo] at hs
    | cons c rest =>
      have e : mergeGroupGo task maxg cc (fuel + 1) (c :: rest) nid =
          (absorbCompatible task maxg cc c nid rest).1 ::
            mergeGroupGo task maxg cc fuel
              (absorbCompatible task maxg cc c nid rest).2.2
              (absorbCompatible task maxg cc c nid rest).2.1 := rfl
      rw [e] at hs
      obtain ⟨hb1, hb2⟩ := absorbCompatible_bound task maxg cc rest c nid
        (hl c (List.mem_cons_self c rest))
        (fun x hx => hl x (List.mem_cons_of_mem c hx))
      rcases List.mem_cons.mp hs with rfl | hs2
      · exact hb1
      · exact ih _ _ hb2 s hs2

theorem merge_group_bound (group : List SubTask) (task : PlanningTask)
    (maxg : ℕ) (cc : ConstraintConfig) (start_id : ℕ)
    (h : ∀ s ∈ group, s.goals.length ≤ maxg) :
    ∀ s ∈ merge_group_with_constraints task maxg cc group start_id,
      s.goals.length ≤ maxg :=
  mergeGroupGo_bound task maxg cc group.length group start_id h

theorem addToBucket_mem_val {κ α : Type} [DecidableEq κ] (k : κ) (a : α) :
    ∀ (bs : List (κ × List α)) (kv : κ × List α), kv ∈ addToBucket k a bs →
    ∀ x ∈ kv.2, x = a ∨ ∃ kv' ∈ bs, x ∈ kv'.2 := by
  intro bs
  induction bs with
  | nil =>
    intro kv hkv x hx
    simp only [addToBucket, List.mem_singleton] at hkv
    subst hkv
    simp only [List.mem_singleton] at hx
    exact Or.inl hx
  | cons b rest ih =>
    intro kv hkv x hx
    obtain ⟨k', as⟩ := b
    simp only [addToBucket] at hkv
    by_cases hk : k' = k
    · rw [if_pos hk] at hkv
      rcases List.mem_cons.mp hkv with rfl | h2
      · rcases List.mem_append.mp hx with h | h
        · exact Or.inr ⟨(k', as), List.mem_cons_self _ rest, h⟩
        · exact Or.inl (List.mem_singleton.mp h)
      · exact Or.inr ⟨kv, List.mem_cons_of_mem _ h2, hx⟩
    · rw [if_neg hk] at hkv
      rcases List.mem_cons.mp hkv with heq | h2
      · exact Or.inr ⟨(k', as), List.mem_cons_self _ rest, heq ▸ hx⟩
      · rcases ih kv h2 x hx with h | ⟨kv', hkv', hx'⟩
        · exact Or.inl h
        · exact Or.inr ⟨kv', List.mem_cons_of_mem _ hkv', hx'⟩

theorem bucketBy_mem_val {κ α : Type} [DecidableEq κ] (key : α → κ) :
    ∀ (l : List α) (acc : List (κ × List α)) (kv : κ × List α),
    kv ∈ l.foldl (fun acc a => addToBucket (key a) a acc) acc →
    ∀ x ∈ kv.2, (∃ kv' ∈ acc, x ∈ kv'.2) ∨ x ∈ l := by
  intro l
  induction l with
  | nil =>
    intro acc kv hkv x hx
    exact Or.inl ⟨kv, hkv, hx⟩
  | cons a rest ih =>
    intro acc kv hkv x hx
    rcases ih (addToBucket (key a) a acc) kv hkv x hx with ⟨kv', hkv', hx'⟩ | h
    · rcases addToBucket_mem_val (key a) a acc kv' hkv' x hx' with heq |
        ⟨kv'', hkv'', hx''⟩
      · rw [heq]
        exact Or.inr (List.mem_cons_self a rest)
      · exact Or.inl ⟨kv'', hkv'', hx''⟩
    · exact Or.inr (List.mem_cons_of_mem a h)

theorem bucketBy_val_subset {κ α : Type} [DecidableEq κ] (key : α → κ)
    (l : List α) (kv : κ × List α) (hkv : kv ∈ bucketBy key l) :
    ∀ x ∈ kv.2, x ∈ l := by
  intro x hx
  rcases bucketBy_mem_val key l [] kv hkv x hx with ⟨kv', hkv', _⟩ | h
  · cases hkv'
  · exact h

theorem mergeWithinFold_bound (task : PlanningTask) (maxg : ℕ)
    (cc : ConstraintConfig) :
    ∀ (groups : List (List (String × Option String) × List SubTask))
      (acc : List SubTask × ℕ),
    (∀ s ∈ acc.1, s.goals.length ≤ maxg) →
    (∀ kv ∈ groups, ∀ x ∈ kv.2, x.goals.length ≤ maxg) →
    ∀ s ∈ (groups.foldl (fun (acc2 : List SubTask × ℕ) kv =>
      if kv.2.length = 1 then (acc2.1 ++ kv.2, acc2.2)
      else
        let gm := merge_group_with_constraints task maxg cc kv.2 acc2.2
        (acc2.1 ++ gm, acc2.2 + gm.length)) acc).1,
    s.goals.length ≤ maxg := by
  intro groups
  induction groups with
  | nil =>
    intro acc hacc _ s hs
    exact hacc s hs
  | cons kv rest ih =>
    intro acc hacc hg s hs
    rw [List.foldl_cons] at hs
    have hstep : ∀ x ∈ (if kv.2.length = 1 then (acc.1 ++ kv.2, acc.2)
        else ((acc.1 ++ merge_group_with_constraints task maxg cc kv.2 acc.2,
          acc.2 + (merge_group_with_constraints task maxg cc kv.2 acc.2).length) :
          List SubTask × ℕ)).1, x.goals.length ≤ maxg := by
      by_cases h1 : kv.2.length = 1
      · rw [if_pos h1]
        intro x hx
        rcases List.mem_append.mp hx with h | h
        · exact hacc x h
        · exact hg kv (List.mem_cons_self kv rest) x h
      · rw [if_neg h1]
        intro x hx
        rcases List.mem_append.mp hx with h | h
        · exact hacc x h
        · exact merge_group_bound kv.2 task maxg cc acc.2
            (hg kv (List.mem_cons_self kv rest)) x h
    exact ih _ hstep (fun x hx => hg x (List.mem_cons_of_mem kv hx)) s hs

theorem merge_within_bound (subtasks : List SubTask) (task : PlanningTask)
    (maxg : ℕ) (cc : ConstraintConfig)
    (h : ∀ s ∈ subtasks, s.goals.length ≤ maxg) :
    ∀ s ∈ merge_within_same_role_signature subtasks task maxg cc,
      s.goals.length ≤ maxg :=
  mergeWithinFold_bound task maxg cc
    (bucketBy (fun s : SubTask => sortedSig s.role_signature) subtasks)
    ([], maxId subtasks + 1)
    (fun s hs => absurd hs (List.not_mem_nil s))
    (fun kv hkv x hx => h x (bucketBy_val_subset _ subtasks kv hkv x hx))

theorem findCompatIdx_spec (task : PlanningTask) (maxg : ℕ)
    (cc : ConstraintConfig) (s0 : SubTask) :
    ∀ (l : List SubTask) (j : ℕ), findCompatIdx task maxg cc s0 l = some j →
    ∃ p, l.get? j = some p ∧
      is_compatible_for_merging s0 p task maxg cc = true := by
  intro l
  induction l with
  | nil =>
    intro j h
    simp [findCompatIdx] at h
  | cons c rest ih =>
    intro j h
    by_cases hc : is_compatible_for_merging s0 c task maxg cc = true
    · have e : findCompatIdx task maxg cc s0 (c :: rest) = some 0 := by
        simp [findCompatIdx, hc]
      rw [e] at h
      have hj : (0 : ℕ) = j := Option.some.inj h
      subst hj
      exact ⟨c, rfl, hc⟩
    · have e : findCompatIdx task maxg cc s0 (c :: rest) =
          (findCompatIdx task maxg cc s0 rest).map (· + 1) := by
        simp [findCompatIdx, hc]
      rw [e] at h
      cases hr : findCompatIdx task maxg cc s0 rest with
      | none =>
        rw [hr] at h
        cases h
      | some j' =>
        rw [hr] at h
        have hj : j' + 1 = j := Option.some.inj h
        subst hj
        obtain ⟨p, hp, hcp⟩ := ih j' hr
        exact ⟨p, hp, hcp⟩

theorem onePassAcross_bound (task : PlanningTask) (maxg : ℕ)
    (cc : ConstraintConfig) :
    ∀ (fuel : ℕ) (l : List SubTask) (nid : ℕ),
    (∀ s ∈ l, s.goals.length ≤ maxg) →
    ∀ s ∈ (onePassAcross task maxg cc fuel l nid).1,
      s.goals.length ≤ maxg := by
  intro fuel
  induction fuel with
  | zero =>
    intro l nid _ s hs
    simp [onePassAcross] at hs
  | succ fuel ih =>
    intro l nid hl s hs
    cases l with
    | nil => simp [onePassAcross] at hs
    | cons c rest =>
      cases hf : findCompatIdx task maxg cc c rest with
      | some j =>
        have e : (onePassAcross task maxg cc (fuel + 1) (c :: rest) nid).1 =
            mergeTwoCA c ((rest.get? j).getD c) task nid cc ::
              (onePassAcross task maxg cc fuel (rest.eraseIdx j) (nid + 1)).1 := by
          simp only [onePassAcross, hf]
        rw [e] at hs
        rcases List.mem_cons.mp hs with rfl | hs2
        · obtain ⟨p, hp, hcp⟩ := findCompatIdx_spec task maxg cc c rest j hf
          have hgd : (rest.get? j).getD c = p := by
            rw [hp]
            rfl
          rw [hgd]
          have hsum := compat_sum_le c p task maxg cc hcp
          have elen := mergeTwoCA_goals_length c p task nid cc
          omega
        · exact ih (rest.eraseIdx j) (nid + 1)
            (fun x hx => hl x (List.mem_cons_of_mem c (mem_of_eraseIdx rest j x hx)))
            s hs2
      | none =>
        have e : (onePassAcross task maxg cc (fuel + 1) (c :: rest) nid).1 =
            c :: (onePassAcross task maxg cc fuel rest nid).1 := by
          simp only [onePassAcross, hf]
        rw [e] at hs
        rcases List.mem_cons.mp hs with rfl | hs2
        · exact hl s (List.mem_cons_self s rest)
        · exact ih rest nid (fun x hx => hl x (List.mem_cons_of_mem c hx)) s hs2

theorem mergeAcrossLoop_bound (task : PlanningTask) (maxg : ℕ)
    (cc : ConstraintConfig) :
    ∀ (fuel : ℕ) (l : List SubTask) (nid : ℕ),
    (∀ s ∈ l, s.goals.length ≤ maxg) →
    ∀ s ∈ mergeAcrossLoop task maxg cc fuel l nid, s.goals.length ≤ maxg := by
  intro fuel
  induction fuel with
  | zero =>
    intro l nid hl s hs
    exact hl s hs
  | succ fuel ih =>
    intro l nid hl s hs
    have hpass := onePassAcross_bound task maxg cc l.length l nid hl
    by_cases hch : (onePassAcross task maxg cc l.length l nid).2.1 = true
    · have e : mergeAcrossLoop task maxg cc (fuel + 1) l nid =
          mergeAcrossLoop task maxg cc fuel
            (onePassAcross task maxg cc l.length l nid).1
            (onePassAcross task maxg cc l.length l nid).2.2 := by
        simp only [mergeAcrossLoop]
        rw [if_pos hch]
      rw [e] at hs
      exact ih _ _ hpass s hs
    · have e : mergeAcrossLoop task maxg cc (fuel + 1) l nid =
          (onePassAcross task maxg cc l.length l nid).1 := by
        simp only [mergeAcrossLoop]
        rw [if_neg hch]
      rw [e] at hs
      exact hpass s hs

theorem merge_across_bound (l : List SubTask) (task : PlanningTask)
    (maxg : ℕ) (cc : ConstraintConfig)
    (h : ∀ s ∈ l, s.goals.length ≤ maxg) :
    ∀ s ∈ merge_compatible_across_roles l task maxg cc,
      s.goals.length ≤ maxg :=
  mergeAcrossLoop_bound task maxg cc (l.length + 1) l (maxId l + 1) h

theorem bestPairStep_compat (task : PlanningTask) (maxg : ℕ)
    (cc : ConstraintConfig) (l : List SubTask) (b0 : Option (ℕ × ℕ × ℤ))
    (ij : ℕ × ℕ)
    (h0 : ∀ b, b0 = some b →
      is_compatible_for_merging ((l.get? b.1).getD dummySubTask)
        ((l.get? b.2.1).getD dummySubTask) task maxg cc = true) :
    ∀ b, bestPairStep task maxg cc l b0 ij = some b →
      is_compatible_for_merging ((l.get? b.1).getD dummySubTask)
        ((l.get? b.2.1).getD dummySubTask) task maxg cc = true := by
  intro b hb
  simp only [bestPairStep] at hb
  by_cases hc : is_compatible_for_merging ((l.get? ij.1).getD dummySubTask)
      ((l.get? ij.2).getD dummySubTask) task maxg cc = true
  · rw [if_pos hc] at hb
    cases b0 with
    | none =>
      have hbe : (ij.1, ij.2, compatibilityScoreCA
          ((l.get? ij.1).getD dummySubTask) ((l.get? ij.2).getD dummySubTask)
          task cc) = b := Option.some.inj hb
      rw [← hbe]
      exact hc
    | some bb =>
      have hb' : (if bb.2.2 < compatibilityScoreCA
            ((l.get? ij.1).getD dummySubTask) ((l.get? ij.2).getD dummySubTask)
            task cc
          then some (ij.1, ij.2, compatibilityScoreCA
            ((l.get? ij.1).getD dummySubTask) ((l.get? ij.2).getD dummySubTask)
            task cc)
          else some bb) = some b := hb
      by_cases hlt : bb.2.2 < compatibilityScoreCA
          ((l.get? ij.1).getD dummySubTask) ((l.get? ij.2).getD dummySubTask)
          task cc
      · rw [if_pos hlt] at hb'
        have hbe := Option.some.inj hb'
        rw [← hbe]
        exact hc
      · rw [if_neg hlt] at hb'
        have hbe : bb = b := Option.some.inj hb'
        rw [← hbe]
        exact h0 bb rfl
  · rw [if_neg hc] at hb
    exact h0 b hb

theorem bestPairFold_compat (task : PlanningTask) (maxg : ℕ)
    (cc : ConstraintConfig) (l : List SubTask) :
    ∀ (ps : List (ℕ × ℕ)) (b0 : Option (ℕ × ℕ × ℤ)),
    (∀ b, b0 = some b →
      is_compatible_for_merging ((l.get? b.1).getD dummySubTask)
        ((l.get? b.2.1).getD dummySubTask) task maxg cc = true) →
    ∀ b, ps.foldl (bestPairStep task maxg cc l) b0 = some b →
      is_compatible_for_merging ((l.get? b.1).getD dummySubTask)
        ((l.get? b.2.1).getD dummySubTask) task maxg cc = true := by
  intro ps
  induction ps with
  | nil =>
    intro b0 h0 b hb
    exact h0 b hb
  | cons ij rest ih =>
    intro b0 h0 b hb
    rw [List.foldl_cons] at hb
    exact ih (bestPairStep task maxg cc l b0 ij)
      (bestPairStep_compat task maxg cc l b0 ij h0) b hb

theorem findBestPair_compat (task : PlanningTask) (maxg : ℕ)
    (cc : ConstraintConfig) (l : List SubTask) (i j : ℕ)
    (h : findBestPair task maxg cc l = some (i, j)) :
    is_compatible_for_merging ((l.get? i).getD dummySubTask)
      ((l.get? j).getD dummySubTask) task maxg cc = true := by
  rw [findBestPair] at h
  cases hf : (pairIndices l.length).foldl (bestPairStep task maxg cc l) none with
  | none =>
    rw [hf] at h
    cases h
  | some b =>
    rw [hf] at h
    have hb : (b.1, b.2.1) = (i, j) := Option.some.inj h
    have h1 : b.1 = i := congrArg Prod.fst hb
    have h2 : b.2.1 = j := congrArg Prod.snd hb
    have hco := bestPairFold_compat task maxg cc l (pairIndices l.length) none
      (fun b hb0 => by cases hb0) b hf
    rw [← h1, ← h2]
    exact hco

theorem aggressiveMergeGo_bound (task : PlanningTask) (maxg : ℕ)
    (cc : ConstraintConfig) (target : ℕ) :
    ∀ (fuel : ℕ) (l : List SubTask) (nid : ℕ),
    (∀ s ∈ l, s.goals.length ≤ maxg) →
    ∀ s ∈ aggressiveMergeGo task maxg cc target fuel l nid,
      s.goals.length ≤ maxg := by
  intro fuel
  induction fuel with
  | zero =>
    intro l nid hl s hs
    exact hl s hs
  | succ fuel ih =>
    intro l nid hl s hs
    by_cases hlen : l.length ≤ target
    · have e : aggressiveMergeGo task maxg cc target (fuel + 1) l nid = l := by
        simp only [aggressiveMergeGo]
        rw [if_pos hlen]
      rw [e] at hs
      exact hl s hs
    · cases hf : findBestPair task maxg cc l with
      | none =>
        have e : aggressiveMergeGo task maxg cc target (fuel + 1) l nid = l := by
          simp only [aggressiveMergeGo]
          rw [if_neg hlen, hf]
        rw [e] at hs
        exact hl s hs
      | some ij =>
        obtain ⟨i, j⟩ := ij
        have e : aggressiveMergeGo task maxg cc target (fuel + 1) l nid =
            aggressiveMergeGo task maxg cc target fuel
              ((l.eraseIdx j).eraseIdx i ++
                [mergeTwoCA ((l.get? i).getD dummySubTask)
                  ((l.get? j).getD dummySubTask) task nid cc]) (nid + 1) := by
          simp only [aggressiveMergeGo]
          rw [if_neg hlen, hf]
        rw [e] at hs
        refine ih _ (nid + 1) ?_ s hs
        intro x hx
        rcases List.mem_append.mp hx with h | h
        · exact hl x (mem_of_eraseIdx l j x (mem_of_eraseIdx (l.eraseIdx j) i x h))
        · rw [List.mem_singleton.mp h]
          have hco := findBestPair_compat task maxg cc l i j hf
          have hsum := compat_sum_le _ _ task maxg cc hco
          have elen := mergeTwoCA_goals_length ((l.get? i).getD dummySubTask)
            ((l.get? j).getD dummySubTask) task nid cc
          omega

theorem aggressive_bound (l : List SubTask) (task : PlanningTask) (maxg : ℕ)
    (cc : ConstraintConfig) (t : ℕ)
    (h : ∀ s ∈ l, s.goals.length ≤ maxg) :
    ∀ s ∈ aggressive_constraint_aware_merge l task maxg cc t,
      s.goals.length ≤ maxg :=
  aggressiveMergeGo_bound task maxg cc t l.length l (maxId l + 1) h

/-- C3 (amended): the merge passes preserve the goal bound — whenever every
subtask ENTERING `constraint_aware_merge_subtasks` has at most
`max_goals_per_subtask` goals, so does every subtask it returns (all three
phases only ever merge pairs judged compatible, and compatibility requires
the combined goal count to stay within the bound).  The unconditional
claim is false because `finer_partition_by_roles` can emit a subtask
already exceeding the bound, which the merge passes never split — see the
accompanying counterexample. -/
theorem constraint_aware_merge_preserves_goal_bound (subtasks : List SubTask)
    (task : PlanningTask) (maxg : ℕ) (target : Option ℕ)
    (cc : ConstraintConfig)
    (h : ∀ s ∈ subtasks, s.goals.length ≤ maxg) :
    ∀ s ∈ constraint_aware_merge_subtasks subtasks task maxg target cc,
      s.goals.length ≤ maxg := by
  intro s hs
  by_cases he : subtasks.isEmpty
  · have e : constraint_aware_merge_subtasks subtasks task maxg target cc =
        subtasks := by
      rw [constraint_aware_merge_subtasks, if_pos he]
    rw [e] at hs
    exact h s hs
  · have hm1 := merge_within_bound subtasks task maxg cc h
    have hm2 := merge_across_bound
      (merge_within_same_role_signature subtasks task maxg cc) task maxg cc hm1
    cases target with
    | none =>
      have e : constraint_aware_merge_subtasks subtasks task maxg none cc =
          merge_compatible_across_roles
            (merge_within_same_role_signature subtasks task maxg cc)
            task maxg cc := by
        rw [constraint_aware_merge_subtasks, if_neg he]
      rw [e] at hs
      exact hm2 s hs
    | some t =>
      have e : constraint_aware_merge_subtasks subtasks task maxg (some t) cc =
          (if t ≠ 0 ∧ t < (merge_compatible_across_roles
              (merge_within_same_role_signature subtasks task maxg cc)
              task maxg cc).length
          then aggressive_constraint_aware_merge
              (merge_compatible_across_roles
                (merge_within_same_role_signature subtasks task maxg cc)
                task maxg cc) task maxg cc t
          else merge_compatible_across_roles
              (merge_within_same_role_signature subtasks task maxg cc)
              task maxg cc) := by
        rw [constraint_aware_merge_subtasks, if_neg he]
      rw [e] at hs
      by_cases ht : t ≠ 0 ∧ t < (merge_compatible_across_roles
          (merge_within_same_role_signature subtasks task maxg cc)
          task maxg cc).length
      · rw [if_pos ht] at hs
        exact aggressive_bound _ task maxg cc t hm2 s hs
      · rw [if_neg ht] at hs
        exact hm2 s hs

/-- Witness for C3 at two singleton subtasks under bound 1, instantiated at
the first returned subtask. -/
theorem constraint_aware_merge_preserves_goal_bound_witness :
    mkSt 0 "a0" "a" ∈ constraint_aware_merge_subtasks
      [mkSt 0 "a0" "a", mkSt 1 "a1" "b"] taskEmpty 1 none ccEmpty ∧
    (mkSt 0 "a0" "a").goals.length ≤ 1 :=
  ⟨by decide, constraint_aware_merge_preserves_goal_bound
    [mkSt 0 "a0" "a", mkSt 1 "a1" "b"] taskEmpty 1 none ccEmpty (by decide)
    (mkSt 0 "a0" "a") (by decide)⟩

/-- C3 (counterexample to the unconditional claim): three same-role goals in
one cluster form a single 3-goal subtask; with `max_goals_per_subtask = 2`
the pipeline returns it untouched, violating the claimed invariant. -/
theorem merge_passes_do_not_enforce_goal_bound :
    (constraint_aware_merge_subtasks
        (finer_partition_by_roles [[⟨"g", ["t1"]⟩, ⟨"g", ["t2"]⟩, ⟨"g", ["t3"]⟩]]
          [(⟨"g", ["t1"]⟩, [("r", "a")]), (⟨"g", ["t2"]⟩, [("r", "a")]),
            (⟨"g", ["t3"]⟩, [("r", "a")])]
          ⟨"dom", ["g"], [], ["r"], none⟩ [])
        taskEmpty 2 (some 5) ccEmpty).map (fun s => s.goals.length) = [3] ∧
    ¬ (∀ s ∈ constraint_aware_merge_subtasks
        (finer_partition_by_roles [[⟨"g", ["t1"]⟩, ⟨"g", ["t2"]⟩, ⟨"g", ["t3"]⟩]]
          [(⟨"g", ["t1"]⟩, [("r", "a")]), (⟨"g", ["t2"]⟩, [("r", "a")]),
            (⟨"g", ["t3"]⟩, [("r", "a")])]
          ⟨"dom", ["g"], [], ["r"], none⟩ [])
        taskEmpty 2 (some 5) ccEmpty, s.goals.length ≤ 2) :=
  ⟨by decide, by decide⟩

/-! ## C2: the goal multiset through the partition-and-merge pipeline -/

/-- The multiset of all goals carried by a list of subtasks. -/
def goalsMS (l : List SubTask) : Multiset GroundAtom :=
  (l : Multiset SubTask).bind (fun s => (s.goals : Multiset GroundAtom))

theorem goalsMS_nil : goalsMS [] = 0 := rfl

theorem goalsMS_cons (s : SubTask) (l : List SubTask) :
    goalsMS (s :: l) = (s.goals : Multiset GroundAtom) + goalsMS l := by
  simp [goalsMS]

theorem goalsMS_append (l1 l2 : List SubTask) :
    goalsMS (l1 ++ l2) = goalsMS l1 + goalsMS l2 := by
  simp [goalsMS]

theorem goalsMS_perm {l1 l2 : List SubTask} (h : l1.Perm l2) :
    goalsMS l1 = goalsMS l2 := by
  rw [goalsMS, goalsMS, Multiset.coe_eq_coe.mpr h]

theorem goalsMS_eq_coe_flatMap (l : List SubTask) :
    goalsMS l = ((l.flatMap (fun s => s.goals) : List GroundAtom) :
      Multiset GroundAtom) := by
  induction l with
  | nil => rfl
  | cons s rest ih =>
    rw [goalsMS_cons, ih, List.flatMap_cons]
    simp

theorem get_perm_cons_eraseIdx {α : Type} :
    ∀ (l : List α) (j : ℕ) (p : α), l.get? j = some p →
      l.Perm (p :: l.eraseIdx j) := by
  intro l
  induction l with
  | nil =>
    intro j p h
    cases h
  | cons a rest ih =>
    intro j p h
    cases j with
    | zero =>
      have hp : a = p := Option.some.inj h
      subst hp
      exact List.Perm.refl _
    | succ j' =>
      have h' : rest.get? j' = some p := h
      have := ih j' p h'
      exact (List.Perm.cons a this).trans (List.Perm.swap p a _)

theorem get_eraseIdx_of_lt {α : Type} :
    ∀ (l : List α) (i j : ℕ), i < j → (l.eraseIdx j).get? i = l.get? i := by
  intro l
  induction l with
  | nil => intro i j _; rfl
  | cons a rest ih =>
    intro i j hij
    cases j with
    | zero => omega
    | succ j' =>
      cases i with
      | zero => rfl
      | succ i' => exact ih i' j' (by omega)

theorem mergeTwoCA_goals_coe (s1 s2 : SubTask) (task : PlanningTask)
    (nid : ℕ) (cc : ConstraintConfig) :
    ((mergeTwoCA s1 s2 task nid cc).goals : Multiset GroundAtom) =
      (s1.goals : Multiset GroundAtom) + (s2.goals : Multiset GroundAtom) := by
  have h : (mergeTwoCA s1 s2 task nid cc).goals = s1.goals ++ s2.goals := rfl
  rw [h]
  simp

theorem absorb_goalsMS (task : PlanningTask) (maxg : ℕ)
    (cc : ConstraintConfig) :
    ∀ (l : List SubTask) (cur : SubTask) (nid : ℕ),
    ((absorbCompatible task maxg cc cur nid l).1.goals : Multiset GroundAtom) +
      goalsMS (absorbCompatible task maxg cc cur nid l).2.2 =
    (cur.goals : Multiset GroundAtom) + goalsMS l := by
  intro l
  induction l with
  | nil => intro cur nid; rfl
  | cons c rest ih =>
    intro cur nid
    by_cases hc : is_compatible_for_merging cur c task maxg cc = true
    · have e : absorbCompatible task maxg cc cur nid (c :: rest) =
          absorbCompatible task maxg cc (mergeTwoCA cur c task nid cc)
            (nid + 1) rest := by
        simp [absorbCompatible, hc]
      rw [e, ih, mergeTwoCA_goals_coe, goalsMS_cons, add_assoc]
    · have e1 : (absorbCompatible task maxg cc cur nid (c :: rest)).1 =
          (absorbCompatible task maxg cc cur nid rest).1 := by
        simp [absorbCompatible, hc]
      have e2 : (absorbCompatible task maxg cc cur nid (c :: rest)).2.2 =
          c :: (absorbCompatible task maxg cc cur nid rest).2.2 := by
        simp [absorbCompatible, hc]
      rw [e1, e2, goalsMS_cons, add_left_comm, ih, goalsMS_cons, add_left_comm]

theorem absorb_kept_length (task : PlanningTask) (maxg : ℕ)
    (cc : ConstraintConfig) :
    ∀ (l : List SubTask) (cur : SubTask) (nid : ℕ),
    (absorbCompatible task maxg cc cur nid l).2.2.length ≤ l.length := by
  intro l
  induction l with
  | nil => intro cur nid; exact Nat.le_refl 0
  | cons c rest ih =>
    intro cur nid
    by_cases hc : is_compatible_for_merging cur c task maxg cc = true
    · have e : absorbCompatible task maxg cc cur nid (c :: rest) =
          absorbCompatible task maxg cc (mergeTwoCA cur c task nid cc)
            (nid + 1) rest := by
        simp [absorbCompatible, hc]
      rw [e]
      have := ih (mergeTwoCA cur c task nid cc) (nid + 1)
      simp only [List.length_cons]
      omega
    · have e2 : (absorbCompatible task maxg cc cur nid (c :: rest)).2.2 =
          c :: (absorbCompatible task maxg cc cur nid rest).2.2 := by
        simp [absorbCompatible, hc]
      rw [e2]
      have := ih cur nid
      simp only [List.length_cons]
      omega

theorem mergeGroupGo_goalsMS (task : PlanningTask) (maxg : ℕ)
    (cc : ConstraintConfig) :
    ∀ (fuel : ℕ) (l : List SubTask) (nid : ℕ), l.length ≤ fuel →
    goalsMS (mergeGroupGo task maxg cc fuel l nid) = goalsMS l := by
  intro fuel
  induction fuel with
  | zero =>
    intro l nid hl
    have hnil : l = [] := List.length_eq_zero.mp (Nat.le_zero.mp hl)
    subst hnil
    rfl
  | succ fuel ih =>
    intro l nid hl
    cases l with
    | nil => rfl
    | cons c rest =>
      have e : mergeGroupGo task maxg cc (fuel + 1) (c :: rest) nid =
          (absorbCompatible task maxg cc c nid rest).1 ::
            mergeGroupGo task maxg cc fuel
              (absorbCompatible task maxg cc c nid rest).2.2
              (absorbCompatible task maxg cc c nid rest).2.1 := rfl
      rw [e, goalsMS_cons,
        ih (absorbCompatible task maxg cc c nid rest).2.2
          (absorbCompatible task maxg cc c nid rest).2.1
          (by
            have h1 := absorb_kept_length task maxg cc rest c nid
            simp only [List.length_cons] at hl
            omega),
        absorb_goalsMS task maxg cc rest c nid, goalsMS_cons]

theorem merge_group_goalsMS (group : List SubTask) (task : PlanningTask)
    (maxg : ℕ) (cc : ConstraintConfig) (start_id : ℕ) :
    goalsMS (merge_group_with_constraints task maxg cc group start_id) =
      goalsMS group :=
  mergeGroupGo_goalsMS task maxg cc group.length group start_id
    (Nat.le_refl group.length)

theorem addToBucket_flatMap_perm {κ α : Type} [DecidableEq κ] (k : κ) (a : α) :
    ∀ (bs : List (κ × List α)),
    ((addToBucket k a bs).flatMap (fun kv => kv.2)).Perm
      (bs.flatMap (fun kv => kv.2) ++ [a]) := by
  intro bs
  induction bs with
  | nil => exact List.Perm.refl _
  | cons b rest ih =>
    obtain ⟨k', as⟩ := b
    by_cases hk : k' = k
    · have e : addToBucket k a ((k', as) :: rest) = (k', as ++ [a]) :: rest := by
        simp [addToBucket, hk]
      rw [e]
      have e2 : ((k', as ++ [a]) :: rest).flatMap (fun kv => kv.2) =
          as ++ ([a] ++ rest.flatMap (fun kv => kv.2)) := by
        simp [List.flatMap_cons]
      have e3 : ((k', as) :: rest).flatMap (fun kv => kv.2) ++ [a] =
          as ++ (rest.flatMap (fun kv => kv.2) ++ [a]) := by
        simp [List.flatMap_cons]
      rw [e2, e3]
      exact List.Perm.append_left as (List.perm_append_comm)
    · have e : addToBucket k a ((k', as) :: rest) =
          (k', as) :: addToBucket k a rest := by
        simp [addToBucket, hk]
      rw [e]
      have e2 : ((k', as) :: addToBucket k a rest).flatMap (fun kv => kv.2) =
          as ++ (addToBucket k a rest).flatMap (fun kv => kv.2) := by
        simp [List.flatMap_cons]
      have e3 : ((k', as) :: rest).flatMap (fun kv => kv.2) ++ [a] =
          as ++ (rest.flatMap (fun kv => kv.2) ++ [a]) := by
        simp [List.flatMap_cons]
      rw [e2, e3]
      exact List.Perm.append_left as ih

theorem bucketFold_flatMap_perm {κ α : Type} [DecidableEq κ] (key : α → κ) :
    ∀ (l : List α) (acc : List (κ × List α)),
    ((l.foldl (fun acc a => addToBucket (key a) a acc) acc).flatMap
      (fun kv => kv.2)).Perm (acc.flatMap (fun kv => kv.2) ++ l) := by
  intro l
  induction l with
  | nil =>
    intro acc
    rw [List.append_nil]
    exact List.Perm.refl _
  | cons a rest ih =>
    intro acc
    have h1 := ih (addToBucket (key a) a acc)
    have h2 := List.Perm.append_right rest
      (addToBucket_flatMap_perm (key a) a acc)
    have e : (acc.flatMap (fun kv => kv.2) ++ [a]) ++ rest =
        acc.flatMap (fun kv => kv.2) ++ (a :: rest) := by
      rw [List.append_assoc]
      rfl
    rw [e] at h2
    exact h1.trans h2

theorem bucketBy_flatMap_perm {κ α : Type} [DecidableEq κ] (key : α → κ)
    (l : List α) :
    ((bucketBy key l).flatMap (fun kv => kv.2)).Perm l :=
  bucketFold_flatMap_perm key l []

theorem mergeWithinFold_goalsMS (task : PlanningTask) (maxg : ℕ)
    (cc : ConstraintConfig) :
    ∀ (groups : List (List (String × Option String) × List SubTask))
      (acc : List SubTask × ℕ),
    goalsMS ((groups.foldl (fun (acc2 : List SubTask × ℕ) kv =>
      if kv.2.length = 1 then (acc2.1 ++ kv.2, acc2.2)
      else
        let gm := merge_group_with_constraints task maxg cc kv.2 acc2.2
        (acc2.1 ++ gm, acc2.2 + gm.length)) acc).1) =
    goalsMS acc.1 + goalsMS (groups.flatMap (fun kv => kv.2)) := by
  intro groups
  induction groups with
  | nil =>
    intro acc
    simp [goalsMS_nil]
  | cons kv rest ih =>
    intro acc
    rw [List.foldl_cons, ih]
    have hstep : goalsMS ((if kv.2.length = 1 then (acc.1 ++ kv.2, acc.2)
        else ((acc.1 ++ merge_group_with_constraints task maxg cc kv.2 acc.2,
          acc.2 + (merge_group_with_constraints task maxg cc kv.2 acc.2).length) :
          List SubTask × ℕ)).1) = goalsMS acc.1 + goalsMS kv.2 := by
      by_cases h1 : kv.2.length = 1
      · rw [if_pos h1]
        exact goalsMS_append acc.1 kv.2
      · rw [if_neg h1]
        show goalsMS (acc.1 ++ merge_group_with_constraints task maxg cc kv.2 acc.2) =
          goalsMS acc.1 + goalsMS kv.2
        rw [goalsMS_append, merge_group_goalsMS]
    simp only [hstep]
    rw [List.flatMap_cons, goalsMS_append, add_assoc]

theorem merge_within_goalsMS (subtasks : List SubTask) (task : PlanningTask)
    (maxg : ℕ) (cc : ConstraintConfig) :
    goalsMS (merge_within_same_role_signature subtasks task maxg cc) =
      goalsMS subtasks := by
  have h1 := mergeWithinFold_goalsMS task maxg cc
    (bucketBy (fun s : SubTask => sortedSig s.role_signature) subtasks)
    ([], maxId subtasks + 1)
  have e : merge_within_same_role_signature subtasks task maxg cc =
      ((bucketBy (fun s : SubTask => sortedSig s.role_signature) subtasks).foldl
        (fun (acc2 : List SubTask × ℕ) kv =>
          if kv.2.length = 1 then (acc2.1 ++ kv.2, acc2.2)
          else
            let gm := merge_group_with_constraints task maxg cc kv.2 acc2.2
            (acc2.1 ++ gm, acc2.2 + gm.length)) ([], maxId subtasks + 1)).1 := rfl
  rw [e, h1, goalsMS_nil, zero_add]
  exact goalsMS_perm (bucketBy_flatMap_perm _ subtasks)

theorem onePass_goalsMS (task : PlanningTask) (maxg : ℕ)
    (cc : ConstraintConfig) :
    ∀ (fuel : ℕ) (l : List SubTask) (nid : ℕ), l.length ≤ fuel →
    goalsMS (onePassAcross task maxg cc fuel l nid).1 = goalsMS l := by
  intro fuel
  induction fuel with
  | zero =>
    intro l nid hl
    have hnil : l = [] := List.length_eq_zero.mp (Nat.le_zero.mp hl)
    subst hnil
    rfl
  | succ fuel ih =>
    intro l nid hl
    cases l with
    | nil => rfl
    | cons c rest =>
      cases hf : findCompatIdx task maxg cc c rest with
      | some j =>
        obtain ⟨p, hp, _⟩ := findCompatIdx_spec task maxg cc c rest j hf
        have hgd : (rest.get? j).getD c = p := by
          rw [hp]
          rfl
        have hperm : rest.Perm (p :: rest.eraseIdx j) :=
          get_perm_cons_eraseIdx rest j p hp
        have hlen : rest.length = (rest.eraseIdx j).length + 1 := by
          have := hperm.length_eq
          simpa using this
        have e : (onePassAcross task maxg cc (fuel + 1) (c :: rest) nid).1 =
            mergeTwoCA c ((rest.get? j).getD c) task nid cc ::
              (onePassAcross task maxg cc fuel (rest.eraseIdx j) (nid + 1)).1 := by
          simp only [onePassAcross, hf]
        rw [e, goalsMS_cons,
          ih (rest.eraseIdx j) (nid + 1)
            (by simp only [List.length_cons] at hl; omega),
          hgd, mergeTwoCA_goals_coe, goalsMS_cons, goalsMS_perm hperm,
          goalsMS_cons, add_assoc]
      | none =>
        have e : (onePassAcross task maxg cc (fuel + 1) (c :: rest) nid).1 =
            c :: (onePassAcross task maxg cc fuel rest nid).1 := by
          simp only [onePassAcross, hf]
        rw [e, goalsMS_cons,
          ih rest nid (by simp only [List.length_cons] at hl; omega),
          goalsMS_cons]

theorem mergeAcrossLoop_goalsMS (task : PlanningTask) (maxg : ℕ)
    (cc : ConstraintConfig) :
    ∀ (fuel : ℕ) (l : List SubTask) (nid : ℕ),
    goalsMS (mergeAcrossLoop task maxg cc fuel l nid) = goalsMS l := by
  intro fuel
  induction fuel with
  | zero => intro l nid; rfl
  | succ fuel ih =>
    intro l nid
    by_cases hch : (onePassAcross task maxg cc l.length l nid).2.1 = true
    · have e : mergeAcrossLoop task maxg cc (fuel + 1) l nid =
          mergeAcrossLoop task maxg cc fuel
            (onePassAcross task maxg cc l.length l nid).1
            (onePassAcross task maxg cc l.length l nid).2.2 := by
        simp only [mergeAcrossLoop]
        rw [if_pos hch]
      rw [e, ih, onePass_goalsMS task maxg cc l.length l nid (Nat.le_refl _)]
    · have e : mergeAcrossLoop task maxg cc (fuel + 1) l nid =
          (onePassAcross task maxg cc l.length l nid).1 := by
        simp only [mergeAcrossLoop]
        rw [if_neg hch]
      rw [e, onePass_goalsMS task maxg cc l.length l nid (Nat.le_refl _)]

theorem merge_across_goalsMS (l : List SubTask) (task : PlanningTask)
    (maxg : ℕ) (cc : ConstraintConfig) :
    goalsMS (merge_compatible_across_roles l task maxg cc) = goalsMS l :=
  mergeAcrossLoop_goalsMS task maxg cc (l.length + 1) l (maxId l + 1)

theorem bestPairStep_cases (task : PlanningTask) (maxg : ℕ)
    (cc : ConstraintConfig) (l : List SubTask) (b0 : Option (ℕ × ℕ × ℤ))
    (ij : ℕ × ℕ) :
    ∀ b, bestPairStep task maxg cc l b0 ij = some b →
      (b.1 = ij.1 ∧ b.2.1 = ij.2) ∨ b0 = some b := by
  intro b hb
  simp only [bestPairStep] at hb
  by_cases hc : is_compatible_for_merging ((l.get? ij.1).getD dummySubTask)
      ((l.get? ij.2).getD dummySubTask) task maxg cc = true
  · rw [if_pos hc] at hb
    cases b0 with
    | none =>
      have hbe := Option.some.inj hb
      rw [← hbe]
      exact Or.inl ⟨rfl, rfl⟩
    | some bb =>
      have hb' : (if bb.2.2 < compatibilityScoreCA
            ((l.get? ij.1).getD dummySubTask) ((l.get? ij.2).getD dummySubTask)
            task cc
          then some (ij.1, ij.2, compatibilityScoreCA
            ((l.get? ij.1).getD dummySubTask) ((l.get? ij.2).getD dummySubTask)
            task cc)
          else some bb) = some b := hb
      by_cases hlt : bb.2.2 < compatibilityScoreCA
          ((l.get? ij.1).getD dummySubTask) ((l.get? ij.2).getD dummySubTask)
          task cc
      · rw [if_pos hlt] at hb'
        have hbe := Option.some.inj hb'
        rw [← hbe]
        exact Or.inl ⟨rfl, rfl⟩
      · rw [if_neg hlt] at hb'
        exact Or.inr (congrArg some (Option.some.inj hb'))
  · rw [if_neg hc] at hb
    exact Or.inr hb

theorem pairIndices_mem (n : ℕ) :
    ∀ ij ∈ pairIndices n, ij.1 < ij.2 ∧ ij.2 < n := by
  intro ij hij
  simp only [pairIndices, List.mem_flatMap, List.mem_map, List.mem_filter,
    List.mem_range, decide_eq_true_eq] at hij
  obtain ⟨i, _, j, ⟨hj, hij2⟩, heq⟩ := hij
  rw [← heq]
  exact ⟨hij2, hj⟩

theorem bestPairFold_valid (task : PlanningTask) (maxg : ℕ)
    (cc : ConstraintConfig) (l : List SubTask) (n : ℕ) :
    ∀ (ps : List (ℕ × ℕ)) (b0 : Option (ℕ × ℕ × ℤ)),
    (∀ ij ∈ ps, ij.1 < ij.2 ∧ ij.2 < n) →
    (∀ b, b0 = some b → b.1 < b.2.1 ∧ b.2.1 < n) →
    ∀ b, ps.foldl (bestPairStep task maxg cc l) b0 = some b →
      b.1 < b.2.1 ∧ b.2.1 < n := by
  intro ps
  induction ps with
  | nil =>
    intro b0 _ h0 b hb
    exact h0 b hb
  | cons ij rest ih =>
    intro b0 hps h0 b hb
    rw [List.foldl_cons] at hb
    refine ih (bestPairStep task maxg cc l b0 ij)
      (fun x hx => hps x (List.mem_cons_of_mem ij hx)) ?_ b hb
    intro b' hb'
    rcases bestPairStep_cases task maxg cc l b0 ij b' hb' with ⟨h1, h2⟩ | h
    · have := hps ij (List.mem_cons_self ij rest)
      rw [h1, h2]
      exact this
    · exact h0 b' h

theorem findBestPair_valid (task : PlanningTask) (maxg : ℕ)
    (cc : ConstraintConfig) (l : List SubTask) (i j : ℕ)
    (h : findBestPair task maxg cc l = some (i, j)) :
    i < j ∧ j < l.length := by
  rw [findBestPair] at h
  cases hf : (pairIndices l.length).foldl (bestPairStep task maxg cc l) none with
  | none =>
    rw [hf] at h
    cases h
  | some b =>
    rw [hf] at h
    have hb : (b.1, b.2.1) = (i, j) := Option.some.inj h
    have h1 : b.1 = i := congrArg Prod.fst hb
    have h2 : b.2.1 = j := congrArg Prod.snd hb
    have hv := bestPairFold_valid task maxg cc l l.length
      (pairIndices l.length) none (pairIndices_mem l.length)
      (fun b hb0 => by cases hb0) b hf
    rw [← h1, ← h2]
    exact hv

theorem get_some_of_lt {α : Type} (l : List α) (j : ℕ) (h : j < l.length) :
    ∃ x, l.get? j = some x := by
  cases hq : l.get? j with
  | none =>
    have := List.get?_eq_none.mp hq
    omega
  | some x => exact ⟨x, rfl⟩

theorem aggressiveMergeGo_goalsMS (task : PlanningTask) (maxg : ℕ)
    (cc : ConstraintConfig) (target : ℕ) :
    ∀ (fuel : ℕ) (l : List SubTask) (nid : ℕ), l.length ≤ fuel + 1 →
    goalsMS (aggressiveMergeGo task maxg cc target fuel l nid) = goalsMS l := by
  intro fuel
  induction fuel with
  | zero => intro l nid _; rfl
  | succ fuel ih =>
    intro l nid hl
    by_cases hlen : l.length ≤ target
    · have e : aggressiveMergeGo task maxg cc target (fuel + 1) l nid = l := by
        simp only [aggressiveMergeGo]
        rw [if_pos hlen]
      rw [e]
    · cases hf : findBestPair task maxg cc l with
      | none =>
        have e : aggressiveMergeGo task maxg cc target (fuel + 1) l nid = l := by
          simp only [aggressiveMergeGo]
          rw [if_neg hlen, hf]
        rw [e]
      | some ij =>
        obtain ⟨i, j⟩ := ij
        obtain ⟨hij, hjl⟩ := findBestPair_valid task maxg cc l i j hf
        obtain ⟨s2, hp2⟩ := get_some_of_lt l j hjl
        have hpermj : l.Perm (s2 :: l.eraseIdx j) :=
          get_perm_cons_eraseIdx l j s2 hp2
        have hil : i < l.length := by omega
        obtain ⟨s1, hp1⟩ := get_some_of_lt l i hil
        have hp1' : (l.eraseIdx j).get? i = some s1 := by
          rw [get_eraseIdx_of_lt l i j hij]
          exact hp1
        have hpermi : (l.eraseIdx j).Perm (s1 :: (l.eraseIdx j).eraseIdx i) :=
          get_perm_cons_eraseIdx (l.eraseIdx j) i s1 hp1'
        have hgd1 : (l.get? i).getD dummySubTask = s1 := by
          rw [hp1]
          rfl
        have hgd2 : (l.get? j).getD dummySubTask = s2 := by
          rw [hp2]
          rfl
        have e : aggressiveMergeGo task maxg cc target (fuel + 1) l nid =
            aggressiveMergeGo task maxg cc target fuel
              ((l.eraseIdx j).eraseIdx i ++
                [mergeTwoCA ((l.get? i).getD dummySubTask)
                  ((l.get? j).getD dummySubTask) task nid cc]) (nid + 1) := by
          simp only [aggressiveMergeGo]
          rw [if_neg hlen, hf]
        have hlen1 : l.length = (l.eraseIdx j).length + 1 := by
          have := hpermj.length_eq
          simpa using this
        have hlen2 : (l.eraseIdx j).length =
            ((l.eraseIdx j).eraseIdx i).length + 1 := by
          have := hpermi.length_eq
          simpa using this
        rw [e, ih _ (nid + 1)
          (by simp only [List.length_append, List.length_cons, List.length_nil]; omega)]
        rw [goalsMS_append, hgd1, hgd2, goalsMS_cons, mergeTwoCA_goals_coe,
          goalsMS_perm hpermj, goalsMS_cons, goalsMS_perm hpermi, goalsMS_cons,
          goalsMS_nil]
        abel

theorem aggressive_goalsMS (l : List SubTask) (task : PlanningTask)
    (maxg : ℕ) (cc : ConstraintConfig) (t : ℕ) :
    goalsMS (aggressive_constraint_aware_merge l task maxg cc t) = goalsMS l :=
  aggressiveMergeGo_goalsMS task maxg cc t l.length l (maxId l + 1)
    (Nat.le_succ l.length)

theorem cams_goalsMS (subtasks : List SubTask) (task : PlanningTask)
    (maxg : ℕ) (target : Option ℕ) (cc : ConstraintConfig) :
    goalsMS (constraint_aware_merge_subtasks subtasks task maxg target cc) =
      goalsMS subtasks := by
  by_cases he : subtasks.isEmpty
  · have e : constraint_aware_merge_subtasks subtasks task maxg target cc =
        subtasks := by
      rw [constraint_aware_merge_subtasks, if_pos he]
    rw [e]
  · cases target with
    | none =>
      have e : constraint_aware_merge_subtasks subtasks task maxg none cc =
          merge_compatible_across_roles
            (merge_within_same_role_signature subtasks task maxg cc)
            task maxg cc := by
        rw [constraint_aware_merge_subtasks, if_neg he]
      rw [e, merge_across_goalsMS, merge_within_goalsMS]
    | some t =>
      have e : constraint_aware_merge_subtasks subtasks task maxg (some t) cc =
          (if t ≠ 0 ∧ t < (merge_compatible_across_roles
              (merge_within_same_role_signature subtasks task maxg cc)
              task maxg cc).length
          then aggressive_constraint_aware_merge
              (merge_compatible_across_roles
                (merge_within_same_role_signature subtasks task maxg cc)
                task maxg cc) task maxg cc t
          else merge_compatible_across_roles
              (merge_within_same_role_signature subtasks task maxg cc)
              task maxg cc) := by
        rw [constraint_aware_merge_subtasks, if_neg he]
      rw [e]
      by_cases ht : t ≠ 0 ∧ t < (merge_compatible_across_roles
          (merge_within_same_role_signature subtasks task maxg cc)
          task maxg cc).length
      · rw [if_pos ht, aggressive_goalsMS, merge_across_goalsMS,
          merge_within_goalsMS]
      · rw [if_neg ht, merge_across_goalsMS, merge_within_goalsMS]

theorem coe_append_ms {α : Type} (l1 l2 : List α) :
    ((l1 ++ l2 : List α) : Multiset α) = (l1 : Multiset α) + (l2 : Multiset α) := by
  simp

theorem finerInner_goalsMS (cfg : DomainRoleConfig)
    (landmarks : List (GroundAtom × List String)) :
    ∀ (groups : List (List (Option String) × List (GroundAtom × RolesMap)))
      (acc : List SubTask × ℕ),
    goalsMS ((groups.foldl (fun (acc2 : List SubTask × ℕ) kv =>
      (acc2.1 ++ [{ id := acc2.2
                    goals := kv.2.map Prod.fst
                    landmark_predicates :=
                      ldedup ((kv.2.map Prod.fst).flatMap
                        (fun g => (alookup g landmarks).getD []))
                    role_signature := cfg.cluster_keys.zip kv.1
                    roles_per_goal := kv.2 }], acc2.2 + 1)) acc).1) =
    goalsMS acc.1 + ((groups.flatMap (fun kv => kv.2.map Prod.fst) :
      List GroundAtom) : Multiset GroundAtom) := by
  intro groups
  induction groups with
  | nil =>
    intro acc
    simp
  | cons kv rest ih =>
    intro acc
    rw [List.foldl_cons, ih]
    have hstep : goalsMS (acc.1 ++
        [{ id := acc.2
           goals := kv.2.map Prod.fst
           landmark_predicates :=
             ldedup ((kv.2.map Prod.fst).flatMap
               (fun g => (alookup g landmarks).getD []))
           role_signature := cfg.cluster_keys.zip kv.1
           roles_per_goal := kv.2 }]) =
        goalsMS acc.1 + ((kv.2.map Prod.fst : List GroundAtom) :
          Multiset GroundAtom) := by
      rw [goalsMS_append, goalsMS_cons, goalsMS_nil, add_zero]
    simp only [hstep]
    rw [List.flatMap_cons, coe_append_ms, add_assoc]

theorem flatMap_map_snd {κ α β : Type} (f : α → β) :
    ∀ (l : List (κ × List α)), l.flatMap (fun kv => kv.2.map f) =
      (l.flatMap (fun kv => kv.2)).map f := by
  intro l
  induction l with
  | nil => rfl
  | cons kv rest ih =>
    rw [List.flatMap_cons, List.flatMap_cons, List.map_append, ih]

theorem filterMap_pair_fst (ra : List (GroundAtom × RolesMap)) :
    ∀ (cluster : List GroundAtom),
    (cluster.filterMap (fun g =>
      (alookup g ra).map (fun roles => (g, roles)))).map Prod.fst =
      cluster.filter (fun g => (alookup g ra).isSome) := by
  intro cluster
  induction cluster with
  | nil => rfl
  | cons g rest ih =>
    cases h : alookup g ra with
    | none => simp [List.filterMap_cons, List.filter_cons, h, ih]
    | some r => simp [List.filterMap_cons, List.filter_cons, h, ih]

theorem finerOuter_goalsMS (ra : List (GroundAtom × RolesMap))
    (cfg : DomainRoleConfig) (landmarks : List (GroundAtom × List String)) :
    ∀ (clusters : List (List GroundAtom)) (acc : List SubTask × ℕ),
    goalsMS ((clusters.foldl (fun (acc : List SubTask × ℕ) cluster =>
      let withRoles := cluster.filterMap (fun g =>
        (alookup g ra).map (fun roles => (g, roles)))
      let groups := bucketBy (fun p : GroundAtom × RolesMap =>
        cfg.cluster_keys.map (fun r => alookup r p.2)) withRoles
      groups.foldl (fun (acc2 : List SubTask × ℕ) kv =>
        let group_goals := kv.2.map Prod.fst
        (acc2.1 ++ [{ id := acc2.2
                      goals := group_goals
                      landmark_predicates :=
                        ldedup (group_goals.flatMap
                          (fun g => (alookup g landmarks).getD []))
                      role_signature := cfg.cluster_keys.zip kv.1
                      roles_per_goal := kv.2 }], acc2.2 + 1)) acc) acc).1) =
    goalsMS acc.1 + ((clusters.flatMap (fun cluster =>
      cluster.filter (fun g => (alookup g ra).isSome)) : List GroundAtom) :
      Multiset GroundAtom) := by
  intro clusters
  induction clusters with
  | nil =>
    intro acc
    simp
  | cons cluster rest ih =>
    intro acc
    rw [List.foldl_cons, ih]
    have hstep : goalsMS (((bucketBy (fun p : GroundAtom × RolesMap =>
        cfg.cluster_keys.map (fun r => alookup r p.2))
        (cluster.filterMap (fun g =>
          (alookup g ra).map (fun roles => (g, roles))))).foldl
        (fun (acc2 : List SubTask × ℕ) kv =>
          (acc2.1 ++
            [{ id := acc2.2
               goals := kv.2.map Prod.fst
               landmark_predicates :=
                 ldedup ((kv.2.map Prod.fst).flatMap
                   (fun g => (alookup g landmarks).getD []))
               role_signature := cfg.cluster_keys.zip kv.1
               roles_per_goal := kv.2 }], acc2.2 + 1)) acc).1) =
        goalsMS acc.1 + ((cluster.filter (fun g => (alookup g ra).isSome) :
          List GroundAtom) : Multiset GroundAtom) := by
      rw [finerInner_goalsMS cfg landmarks]
      rw [flatMap_map_snd]
      have hperm := List.Perm.map Prod.fst
        (bucketBy_flatMap_perm (fun p : GroundAtom × RolesMap =>
          cfg.cluster_keys.map (fun r => alookup r p.2))
          (cluster.filterMap (fun g =>
            (alookup g ra).map (fun roles => (g, roles)))))
      rw [Multiset.coe_eq_coe.mpr hperm, filterMap_pair_fst]
    simp only [hstep]
    rw [List.flatMap_cons, coe_append_ms, add_assoc]

theorem finer_partition_goalsMS (clusters : List (List GroundAtom))
    (ra : List (GroundAtom × RolesMap)) (cfg : DomainRoleConfig)
    (lm : List (GroundAtom × List String)) :
    goalsMS (finer_partition_by_roles clusters ra cfg lm) =
      ((clusters.flatMap (fun cluster =>
        cluster.filter (fun g => (alookup g ra).isSome)) : List GroundAtom) :
        Multiset GroundAtom) := by
  have h := finerOuter_goalsMS ra cfg lm clusters ([], 0)
  rw [goalsMS_nil, zero_add] at h
  exact h

/-- C2 (amended): goal round-trip through the pipeline holds exactly when
every goal reaches the partition with a role assignment.  Provided the
clusters carry the task's goals (their concatenation is a permutation of
`PlanningTask.goals`) and every goal has a role assignment, the subtasks
returned by `finer_partition_by_roles` followed by
`constraint_aware_merge_subtasks` carry every goal exactly once — the
concatenation of their goal lists is a permutation of `task.goals` (so no
goal is lost or duplicated across subtasks), and in particular every goal
of every emitted subtask is a member of `task.goals`.  The unconditional
claim is false: `finer_partition_by_roles` silently drops every goal
without a role assignment — see the accompanying counterexample. -/
theorem pipeline_goal_roundtrip (clusters : List (List GroundAtom))
    (ra : List (GroundAtom × RolesMap)) (cfg : DomainRoleConfig)
    (lm : List (GroundAtom × List String)) (task : PlanningTask)
    (maxg : ℕ) (target : Option ℕ) (cc : ConstraintConfig)
    (hcl : clusters.flatten.Perm task.goals)
    (hra : ∀ g ∈ task.goals, (alookup g ra).isSome = true) :
    ((constraint_aware_merge_subtasks
        (finer_partition_by_roles clusters ra cfg lm) task maxg target
        cc).flatMap (fun s => s.goals)).Perm task.goals ∧
    ∀ st ∈ constraint_aware_merge_subtasks
        (finer_partition_by_roles clusters ra cfg lm) task maxg target cc,
      ∀ g ∈ st.goals, g ∈ task.goals := by
  have hms : goalsMS (constraint_aware_merge_subtasks
      (finer_partition_by_roles clusters ra cfg lm) task maxg target cc) =
      (task.goals : Multiset GroundAtom) := by
    rw [cams_goalsMS, finer_partition_goalsMS]
    have hc : ∀ c ∈ clusters,
        c.filter (fun g => (alookup g ra).isSome) = c := by
      intro c hcmem
      apply List.filter_eq_self.mpr
      intro g hg
      exact hra g (hcl.mem_iff.mp (List.mem_flatten.mpr ⟨c, hcmem, hg⟩))
    have hflat : ∀ (cs : List (List GroundAtom)),
        (∀ c ∈ cs, c.filter (fun g => (alookup g ra).isSome) = c) →
        cs.flatMap (fun c => c.filter (fun g => (alookup g ra).isSome)) =
          cs.flatten := by
      intro cs
      induction cs with
      | nil => intro _; rfl
      | cons c rest ih2 =>
        intro hcs
        rw [List.flatMap_cons, hcs c (List.mem_cons_self c rest),
          ih2 (fun x hx => hcs x (List.mem_cons_of_mem c hx)),
          List.flatten_cons]
    rw [hflat clusters hc]
    exact Multiset.coe_eq_coe.mpr hcl
  have hperm : ((constraint_aware_merge_subtasks
      (finer_partition_by_roles clusters ra cfg lm) task maxg target
      cc).flatMap (fun s => s.goals)).Perm task.goals := by
    apply Multiset.coe_eq_coe.mp
    rw [← goalsMS_eq_coe_flatMap]
    exact hms
  refine ⟨hperm, ?_⟩
  intro st hst g hg
  exact hperm.mem_iff.mp (List.mem_flatMap.mpr ⟨st, hst, hg⟩)

/-- Witness for C2: one cluster, one goal, a role assignment covering it. -/
theorem pipeline_goal_roundtrip_witness :
    ((constraint_aware_merge_subtasks
        (finer_partition_by_roles [[gAtom1]] [(gAtom1, [("r", "l1")])]
          ⟨"dom", ["g"], [], ["r"], none⟩ []) taskC1 10 none
        ccEmpty).flatMap (fun s => s.goals)).Perm taskC1.goals ∧
    ∀ st ∈ constraint_aware_merge_subtasks
        (finer_partition_by_roles [[gAtom1]] [(gAtom1, [("r", "l1")])]
          ⟨"dom", ["g"], [], ["r"], none⟩ []) taskC1 10 none ccEmpty,
      ∀ g ∈ st.goals, g ∈ taskC1.goals :=
  pipeline_goal_roundtrip [[gAtom1]] [(gAtom1, [("r", "l1")])]
    ⟨"dom", ["g"], [], ["r"], none⟩ [] taskC1 10 none ccEmpty
    (by decide) (by decide)

/-- C2 (counterexample to the claim as stated): a goal with no role
assignment is silently dropped by `finer_partition_by_roles`, so the
pipeline returns no subtasks and the union of subtask goals fails to equal
`task.goals`. -/
theorem pipeline_drops_unassigned_goals :
    constraint_aware_merge_subtasks
      (finer_partition_by_roles [[gAtom1]] []
        ⟨"dom", ["g"], [], ["r"], none⟩ []) taskC1 10 none ccEmpty = [] ∧
    ¬ ((constraint_aware_merge_subtasks
        (finer_partition_by_roles [[gAtom1]] []
          ⟨"dom", ["g"], [], ["r"], none⟩ []) taskC1 10 none
        ccEmpty).flatMap (fun s => s.goals)).Perm taskC1.goals :=
  ⟨by decide, by decide⟩

end PDDLAlloc
